import Mathlib

/-!
Verification of the poe2openai protocol-translation gateway.

The Rust sources under `src/` are embedded shallowly: strings are lists of
characters (`Str`), the sled trees of the cache are association lists, the
upstream event stream is a list of events, and every stateful handler becomes
a pure function threading its state.  Numeric environment inputs (TTL seconds,
size budget in bytes) are passed as explicit parameters; `SystemTime::now()`
becomes an explicit `now : Nat` argument (seconds since the epoch).
-/

set_option maxHeartbeats 2000000

namespace P2O

/-- A Rust string, modelled as its list of characters.  Rust byte indices
become character indices; all inputs of interest are ASCII, where the two
coincide. -/
abbrev Str := List Char

/-- Rust `str::find` for a literal pattern: index of the first occurrence of
`pat` inside `s`, if any. -/
def findSub (pat : Str) : Str → Option Nat
  | [] => if pat = [] then some 0 else none
  | c :: rest =>
    if pat.isPrefixOf (c :: rest) then some 0
    else (findSub pat rest).map (· + 1)

/-- Rust `str::contains` for a literal pattern. -/
def containsSub (s pat : Str) : Bool := (findSub pat s).isSome

/-- Rust `str::starts_with` for a literal pattern. -/
def startsWithSub (s pat : Str) : Bool := pat.isPrefixOf s

/-- Rust `str::ends_with` for a single character. -/
def endsWithCh (c : Char) (s : Str) : Bool :=
  match s.getLast? with
  | some d => d == c
  | none => false

/-- Rust `str::strip_prefix(pat).unwrap_or(s)`: drop the pattern when it
heads the string, else return the string unchanged. -/
def dropPat (pat s : Str) : Str :=
  if pat.isPrefixOf s then s.drop pat.length else s

/-- Rust `str::trim` (ASCII whitespace; the inputs of interest are ASCII). -/
def trimStr (s : Str) : Str :=
  ((s.dropWhile Char.isWhitespace).reverse.dropWhile Char.isWhitespace).reverse

/-- Rust `str::split(c)`: the list of (possibly empty) pieces between
occurrences of the character `c`.  Never returns the empty list. -/
def splitCh (c : Char) : Str → List Str
  | [] => [[]]
  | x :: xs =>
    match splitCh c xs with
    | [] => [[x]]
    | h :: t => if x = c then [] :: h :: t else (x :: h) :: t

/-- Join pieces with a separator: Rust `slice::join`. -/
def joinSep (sep : Str) : List Str → Str
  | [] => []
  | [x] => x
  | x :: xs => x ++ sep ++ joinSep sep xs

/-- Drop one trailing carriage return, as Rust `str::lines` does for
`\r\n` line endings. -/
def dropTrailCR (l : Str) : Str := if endsWithCh '\r' l then l.dropLast else l

/-- Rust `str::lines`: split on `\n`, with no empty trailing line for a
trailing newline, and `\r\n` treated as a line ending. -/
def linesStr (s : Str) : List Str :=
  if s = [] then []
  else
    let ps := splitCh '\n' s
    let ps := if endsWithCh '\n' s then ps.dropLast else ps
    ps.map dropTrailCR

/-- One pass of Rust `str::replace`: rewrite the first `fuel` occurrences of
`pat` (from the left, non-overlapping) to `rep`. -/
def replaceAllGo (pat rep : Str) : Nat → Str → Str
  | 0, s => s
  | fuel + 1, s =>
    match findSub pat s with
    | none => s
    | some i => s.take i ++ rep ++ replaceAllGo pat rep fuel (s.drop (i + pat.length))

/-- Rust `str::replace(pat, rep)` for a non-empty pattern (every call site in
the sources uses a bracketed inline reference, which is non-empty); `s.length`
occurrences always suffice since each match consumes at least one character. -/
def replaceAll (s pat rep : Str) : Str :=
  if pat = [] then s else replaceAllGo pat rep s.length s

/-- Decimal rendering of one digit, as Rust formats it. -/
def natToStrGo : Nat → Nat → Str
  | 0, _ => []
  | fuel + 1, n =>
    if n < 10 then [Nat.digitChar n]
    else natToStrGo fuel (n / 10) ++ [Nat.digitChar (n % 10)]

/-- Rust `format!` of an unsigned integer (decimal digits). -/
def natToStr (n : Nat) : Str := natToStrGo (n + 1) n

/-- Numeric value of a digit character. -/
def digitVal (c : Char) : Nat := c.toNat - 48

/-- Accumulate the decimal value of a digit string. -/
def digitsVal (s : Str) : Nat := s.foldl (fun a c => 10 * a + digitVal c) 0

/-- Rust `str::parse::<u64>` (on the strings of interest, which never carry a
sign): all characters must be digits and the string non-empty.  Overflow is
not modelled; the parsed quantities are unbounded naturals. -/
def strToNat (s : Str) : Option Nat :=
  if s.isEmpty then none
  else if s.all (·.isDigit) then some (digitsVal s)
  else none

/-! ### Cache store (`src/cache.rs`)

The sled database holds two trees of interest, `urls` and `base64`; each tree
is modelled as an association list in insertion order with unique keys
(`treeInsert` replaces in place).  Stored values follow the source format
`"<expires_at>:<poe_url>:<size>"`.  `URL_CACHE_TTL_SECONDS` and the byte
budget derived from `URL_CACHE_SIZE_MB` are explicit parameters `ttl` and
`maxBytes`; `SystemTime::now()` is the explicit parameter `now`. -/

/-- One sled tree: keys to stored values. -/
abbrev Tree := List (Str × Str)

/-- Insert, replacing an existing binding for the key in place. -/
def treeInsert (t : Tree) (k v : Str) : Tree :=
  match t with
  | [] => [(k, v)]
  | (k0, v0) :: rest =>
    if k0 = k then (k, v) :: rest else (k0, v0) :: treeInsert rest k v

/-- Remove a key (sled `Tree::remove`). -/
def treeRemove (t : Tree) (k : Str) : Tree :=
  t.filter (fun e => decide (e.1 ≠ k))

/-- Look a key up (sled `Tree::get`). -/
def treeGet (t : Tree) (k : Str) : Option Str :=
  match t with
  | [] => none
  | (k0, v) :: rest => if k0 = k then some v else treeGet rest k

/-- The two cache trees of the sled store. -/
structure DB where
  urls : Tree
  base64 : Tree
deriving DecidableEq

/-- The store with both trees empty. -/
def emptyDB : DB := { urls := [], base64 := [] }

/-- The stored value `"<expires_at>:<poe_url>:<size>"` built by `cache_url`
and `cache_base64`. -/
def fmtValue (e : Nat) (u : Str) (s : Nat) : Str :=
  natToStr e ++ ':' :: (u ++ ':' :: natToStr s)

/-- The key `"url:<original_url>"`. -/
def urlKey (orig : Str) : Str := ("url:").data ++ orig

/-- The key `"base64:<hash>"`. -/
def base64Key (hash : Str) : Str := ("base64:").data ++ hash

/-- The entry `(expires_secs, tree, key, size)` that `check_and_control_cache_size`
collects from one key/value pair, when the value parses; the tree is recorded
as a flag (`true` = `urls`). -/
def entryOf (isUrls : Bool) (kv : Str × Str) : Option (Nat × Bool × Str × Nat) :=
  let parts := splitCh ':' kv.2
  if parts.length ≥ 3 then
    match strToNat (parts.headD []) with
    | some e =>
      match strToNat (parts.getLastD []) with
      | some s => some (e, isUrls, kv.1, s)
      | none => none
    | none => none
  else none

/-- The size component of a collected entry. -/
def szOf (e : Nat × Bool × Str × Nat) : Nat := e.2.2.2

/-- The key pair (tree flag, key) identifying a collected entry. -/
def keyOf (e : Nat × Bool × Str × Nat) : Bool × Str := (e.2.1, e.2.2.1)

/-- All parseable entries of one tree, in tree order. -/
def collectTree (isUrls : Bool) (t : Tree) : List (Nat × Bool × Str × Nat) :=
  t.filterMap (entryOf isUrls)

/-- All parseable entries of both trees, `urls` first, as the maintenance
pass collects them. -/
def collectEntries (db : DB) : List (Nat × Bool × Str × Nat) :=
  collectTree true db.urls ++ collectTree false db.base64

/-- The joint recorded size of the `urls` and `base64` trees (the
`current_size` of the maintenance pass). -/
def sumSizes (db : DB) : Nat := ((collectEntries db).map szOf).sum

/-- Stable insertion of an entry behind all entries with a key not above its
own: together with `sortByExp` this is a stable sort by `expires_secs`,
matching `sort_by_key` up to tie order (which no theorem relies on). -/
def insByExp (x : Nat × Bool × Str × Nat) :
    List (Nat × Bool × Str × Nat) → List (Nat × Bool × Str × Nat)
  | [] => [x]
  | y :: ys => if y.1 ≤ x.1 then y :: insByExp x ys else x :: y :: ys

/-- Sort collected entries by ascending `expires_secs` (delete earliest
expiring first). -/
def sortByExp (l : List (Nat × Bool × Str × Nat)) : List (Nat × Bool × Str × Nat) :=
  l.foldl (fun acc x => insByExp x acc) []

/-- The deletion loop of `check_and_control_cache_size`: delete entries until
`bytes_to_free` is exhausted (`saturating_sub` per entry). -/
def delLoop : List (Nat × Bool × Str × Nat) → DB → Nat → DB
  | [], db, _ => db
  | e :: rest, db, btf =>
    if btf = 0 then db
    else
      let db2 :=
        if e.2.1 then { db with urls := treeRemove db.urls e.2.2.1 }
        else { db with base64 := treeRemove db.base64 e.2.2.1 }
      delLoop rest db2 (btf - szOf e)

/-- `check_and_control_cache_size`: if the collected sizes exceed the budget,
free the excess plus a tenth of the budget, deleting entries with the
smallest expiry first. -/
def checkAndControl (maxBytes : Nat) (db : DB) : DB :=
  let entries := collectEntries db
  let current := (entries.map szOf).sum
  if current > maxBytes then
    delLoop (sortByExp entries) db (current - maxBytes + maxBytes / 10)
  else db

/-- The insertion step of `cache_url` (before maintenance). -/
def cacheUrlInsert (ttl : Nat) (orig poe : Str) (size : Nat) (now : Nat) (db : DB) : DB :=
  { db with urls := treeInsert db.urls (urlKey orig) (fmtValue (now + ttl) poe size) }

/-- `cache_url`: store under `"url:<orig>"` with expiry `now + ttl`, then run
size maintenance. -/
def cacheUrl (ttl maxBytes : Nat) (orig poe : Str) (size : Nat) (now : Nat) (db : DB) : DB :=
  checkAndControl maxBytes (cacheUrlInsert ttl orig poe size now db)

/-- `cache_base64`: store under `"base64:<hash>"` with expiry `now + ttl`.
Unlike `cache_url`, the source runs no size maintenance here. -/
def cacheBase64 (ttl : Nat) (hash poe : Str) (size : Nat) (now : Nat) (db : DB) : DB :=
  { db with base64 := treeInsert db.base64 (base64Key hash) (fmtValue (now + ttl) poe size) }

/-- `get_cached_url`: parse the stored value as
`"<expires>:<poe_url>:<size>"` (first and last colon-separated fields are the
bounded ones, the interior rejoined is the URL); on an unexpired hit, refresh
the TTL by re-inserting through `cache_url` and return the pair; at or past
expiry, delete the entry and miss. -/
def getCachedUrl (ttl maxBytes : Nat) (orig : Str) (now : Nat) (db : DB) :
    Option (Str × Nat) × DB :=
  let key := urlKey orig
  match treeGet db.urls key with
  | none => (none, db)
  | some value =>
    let parts := splitCh ':' value
    if parts.length ≥ 3 then
      match strToNat (parts.headD []) with
      | some expires =>
        if expires > now then
          let sizeStr := parts.getLastD []
          let poeUrl := joinSep [':'] ((parts.drop 1).dropLast)
          match strToNat sizeStr with
          | some size =>
            (some (poeUrl, size), cacheUrl ttl maxBytes orig poeUrl size now db)
          | none => (none, db)
        else
          (none, { db with urls := treeRemove db.urls key })
      | none => (none, db)
    else (none, db)

/-- `estimate_base64_size`: the payload after the `";base64,"` separator
(`split(";base64,").nth(1)`), times `0.75`, truncated (Rust casts the `f64`
product to `usize`, which floors; the product is exact for every realistic
length since `0.75 = 3/4`). -/
def splitSubGo (pat : Str) : Nat → Str → List Str
  | 0, s => [s]
  | fuel + 1, s =>
    match findSub pat s with
    | none => [s]
    | some i => s.take i :: splitSubGo pat fuel (s.drop (i + pat.length))

/-- Rust `str::split` with a literal multi-character pattern (the sources only
use the non-empty pattern `";base64,"`). -/
def splitSub (s pat : Str) : List Str :=
  if pat = [] then [s] else splitSubGo pat s.length s

/-- `estimate_base64_size` from `src/cache.rs`. -/
def estimateBase64Size (dataUrl : Str) : Nat :=
  match (splitSub dataUrl ((";base64,").data))[1]? with
  | some part => 3 * part.length / 4
  | none => 0

/-- A collected maintenance entry `(expires, tree flag, key, size)`. -/
abbrev CEntry := Nat × Bool × Str × Nat

/-- Well-formed store: each tree binds every key at most once (sled keys are
unique; `treeInsert` and `treeRemove` preserve this). -/
def WFdb (db : DB) : Prop :=
  (db.urls.map Prod.fst).Nodup ∧ (db.base64.map Prod.fst).Nodup

instance : DecidablePred WFdb := fun db => by
  unfold WFdb
  infer_instance

/-! ### Data model (`src/types.rs`, `poe_api_process` types)

Fields that the embedded code paths never read (opaque `serde_json::Value`
payloads, float parameters that are only forwarded) are either dropped or
carried with simplified types, as noted; no claim depends on them. -/

/-- The `function` part of a tool call. -/
structure FunctionCall where
  name : Str
  arguments : Str
deriving DecidableEq

/-- `poe_api_process::types::ChatToolCall`. -/
structure ChatToolCall where
  id : Str
  ctype : Str
  function : FunctionCall
deriving DecidableEq

/-- `poe_api_process::types::FileData`. -/
structure FileData where
  name : Str
  url : Str
  inlineRef : Str
deriving DecidableEq

/-- One upstream event, tag and payload together (`ChatResponse.event` plus
`ChatResponse.data`).  Each event carries the payload matching its tag; the
defensive source branches for mismatched payloads are unreachable here.  A
`Json` event may or may not carry tool calls. -/
inductive ChatEvent where
  | text (t : Str)
  | replaceResponse (t : Str)
  | file (f : FileData)
  | json (toolCalls : Option (List ChatToolCall))
  | error (t : Str) (allowRetry : Bool)
  | done
deriving DecidableEq

/-- `OpenAIError` (`src/types.rs`). -/
structure OpenAIError where
  message : Str
  etype : Str
  code : Str
  param : Option Str
deriving DecidableEq

/-- `OpenAIErrorResponse`. -/
structure OpenAIErrorResponse where
  error : OpenAIError
deriving DecidableEq

/-- `convert_poe_error_to_openai` (`src/utils.rs`): classify the upstream
error text by substring and build the OpenAI error body.  The status code is
its numeric value; `allow_retry` is only logged by the source. -/
def convertPoeErrorToOpenai (errorText : Str) (_allowRetry : Bool) :
    Nat × OpenAIErrorResponse :=
  let triple :=
    if containsSub errorText (("Internal server error").data) then
      (500, ("internal_error").data, ("internal_error").data)
    else if containsSub errorText (("rate limit").data) then
      (429, ("rate_limit_exceeded").data, ("rate_limit_exceeded").data)
    else if containsSub errorText (("Invalid token").data)
        || containsSub errorText (("Unauthorized").data) then
      (401, ("invalid_auth").data, ("invalid_api_key").data)
    else if containsSub errorText (("Bot does not exist").data) then
      (404, ("model_not_found").data, ("model_not_found").data)
    else
      (400, ("invalid_request").data, ("bad_request").data)
  (triple.1,
    { error := { message := errorText, etype := triple.2.1, code := triple.2.2, param := none } })

/-- A JSON value as read by `get_text_from_openai_content` from a
`tool_result` block: a string, null, or some other value carried with its
serde serialization. -/
inductive JVal where
  | jstr (s : Str)
  | jnull
  | jother (serialized : Str)
deriving DecidableEq

/-- `OpenAiContentItem`.  `InputAudio` payloads are opaque and never read;
for `Other` only the optional `"text"` string field is ever read. -/
inductive ContentItem where
  | text (ctype : Option Str) (t : Str)
  | imageUrl (ctype : Option Str) (url : Str)
  | toolResult (ctype : Option Str) (id : Option Str) (toolCallId : Option Str) (content : JVal)
  | inputSound
  | other (textField : Option Str)
deriving DecidableEq

/-- `OpenAiContent`: plain text or multipart. -/
inductive OpenAiContent where
  | text (s : Str)
  | multi (items : List ContentItem)
deriving DecidableEq

/-- `Message` (`src/types.rs`); the opaque `refusal`/`audio`/`metadata`
serde values, never read by the embedded paths, are dropped. -/
structure Message where
  role : Str
  name : Option Str
  content : Option OpenAiContent
  toolCalls : Option (List ChatToolCall)
  toolCallId : Option Str
deriving DecidableEq

/-- `ModelConfig` from `models.yaml`. -/
structure ModelConfig where
  mapping : Option Str
  replaceResponse : Option Bool
  enable : Option Bool
deriving DecidableEq

/-- `CustomModel` from `models.yaml`. -/
structure CustomModel where
  id : Str
  created : Option Int
  ownedBy : Option Str
deriving DecidableEq

/-- `Config`: the `models` HashMap becomes an association list; its iteration
order is arbitrary in the source, which no confirmed theorem relies on. -/
structure Config where
  enable : Option Bool
  models : List (Str × ModelConfig)
  customModels : Option (List CustomModel)
  apiToken : Option Str
  useV1Api : Option Bool
deriving DecidableEq

/-- Association-list lookup (HashMap `get`). -/
def assocGet {β : Type} (l : List (Str × β)) (k : Str) : Option β :=
  match l with
  | [] => none
  | (k0, v) :: rest => if k0 = k then some v else assocGet rest k

/-- Rust `char::to_lowercase` restricted to ASCII (all ids of interest are
ASCII). -/
def toLowerStr (s : Str) : Str := s.map Char.toLower

/-- The model-mapping resolution of `chat_completions` (`src/handlers/chat.rs`
lines 93–125): returns `(display_model, original_model)`.  With config
enabled, an entry whose `mapping` equals the requested id case-insensitively
is used in reverse (upstream gets the entry key); otherwise the requested id
passes through, whether or not it has a direct mapping entry. -/
def resolveModelMapping (config : Config) (requestedModel : Str) : Str × Str :=
  if config.enable.getD false then
    let mappingEntry := config.models.find? (fun ent =>
      match ent.2.mapping with
      | some mapping => toLowerStr mapping == toLowerStr requestedModel
      | none => false)
    match mappingEntry with
    | some (originalName, _) => (requestedModel, originalName)
    | none =>
      match assocGet config.models requestedModel with
      | some modelConfig =>
        match modelConfig.mapping with
        | some _ => (requestedModel, requestedModel)
        | none => (requestedModel, requestedModel)
      | none => (requestedModel, requestedModel)
  else (requestedModel, requestedModel)

/-- Outcome of the sled read in `get_cached_config`: a cached config,
no entry, or a failure (read error or corrupt stored bytes). -/
inductive SledConfigRead where
  | found (c : Config)
  | empty
  | readFail
deriving DecidableEq

/-- State of `models.yaml` on disk as `load_config_from_yaml` can observe
it. -/
inductive YamlState where
  | missing
  | unreadable
  | malformed
  | parsed (c : Config)
deriving DecidableEq

/-- The default configuration built on a missing file or a load failure:
`enable = Some(false)`, no models. -/
def defaultConfig : Config :=
  { enable := some false, models := [], customModels := none,
    apiToken := none, useV1Api := none }

/-- `load_config_from_yaml` (`src/utils.rs`): a missing file yields the
default config, a read or parse failure an error, otherwise the parsed
config. -/
def loadConfigFromYaml : YamlState → Except Str Config
  | .missing => .ok defaultConfig
  | .unreadable => .error (("Failed to read models.yaml").data)
  | .malformed => .error (("Failed to parse models.yaml").data)
  | .parsed c => .ok c

/-- `get_cached_config` (`src/cache.rs`): serve the sled-cached config when
present; on a miss or sled failure fall back to the YAML loader; on a YAML
failure fall back to the default config.  The write-back of a freshly loaded
config has its result discarded. -/
def getCachedConfig (sled : SledConfigRead) (yaml : YamlState) : Config :=
  match sled with
  | .found c => c
  | .empty =>
    match loadConfigFromYaml yaml with
    | .ok conf => conf
    | .error _ => defaultConfig
  | .readFail =>
    match loadConfigFromYaml yaml with
    | .ok conf => conf
    | .error _ => defaultConfig

/-! ### Thinking sub-parser (`src/evert.rs`, `ThinkingProcessor`)

The thinking-relevant projection of `EventContext`: the fields that
`process_text_chunk` and `process_thinking_content` read or write. -/

structure ThinkCtx where
  content : Str
  reasoningContent : Str
  thinkingStarted : Bool
  inThinkingMode : Bool
  currentReasoningLine : Str
  pendingText : Str
deriving DecidableEq

/-- The empty context (all fields of `EventContext::default()` that the
thinking parser touches). -/
def emptyThinkCtx : ThinkCtx :=
  { content := [], reasoningContent := [], thinkingStarted := false,
    inThinkingMode := false, currentReasoningLine := [], pendingText := [] }

/-- `detect_thinking_start`: position of `*Thinking...*`, else of
`Thinking...`. -/
def detectThinkingStart (text : Str) : Option Nat :=
  match findSub (("*Thinking...*").data) text with
  | some pos => some pos
  | none => findSub (("Thinking...").data) text

/-- The inner `while j < lines.len()` loop of `process_thinking_content`:
join onto `fl` the following trimmed lines that are glued to `line` in the
raw buffer without a true newline; `rest` holds `lines[j..]`, `j` the
current index.  Returns the joined line and the final `j`. -/
def thinkJoinLoop (pending line : Str) : List Str → Nat → Str → Str × Nat
  | [], j, fl => (fl, j)
  | next :: more, j, fl =>
    let nextLine := trimStr next
    if ¬ (startsWithSub nextLine (("> ").data) = true) ∧ nextLine ≠ [] then
      match findSub line pending with
      | some currentPos =>
        match findSub nextLine (pending.drop currentPos) with
        | some rel =>
          let nextPos := currentPos + rel
          let startPos := currentPos + line.length
          if startPos ≤ nextPos then
            let between := (pending.drop startPos).take (nextPos - startPos)
            if between.contains '\n' then (fl, j)
            else thinkJoinLoop pending line more (j + 1) (fl ++ nextLine)
          else (fl, j)
        | none => (fl, j)
      | none => (fl, j)
    else if nextLine = [] then thinkJoinLoop pending line more (j + 1) fl
    else (fl, j)

/-- The outer `for (i, line)` loop of `process_thinking_content`.  State:
collected reasoning chunks, `processed_lines`, the `thinking_ended` flag and
`current_reasoning_line`.  `isEndNl` caches whether the raw buffer ends in a
newline (the incomplete-last-line test). -/
def thinkOuter (pending : Str) (isEndNl : Bool) :
    List Str → Nat → List Str → Nat → Str → List Str × Nat × Bool × Str
  | [], _, chunks, pl, crl => (chunks, pl, false, crl)
  | line :: rest, i, chunks, pl, crl =>
    let trimmed := trimStr line
    if startsWithSub trimmed (("> ").data) = true ∨ trimmed = ['>'] then
      let thinkingContent := if trimmed = ['>'] then [] else dropPat (("> ").data) trimmed
      if rest = [] ∧ ¬ (isEndNl = true) then
        (chunks, pl, false, thinkingContent)
      else
        let fj := thinkJoinLoop pending line rest (i + 1) thinkingContent
        thinkOuter pending isEndNl rest (i + 1) (chunks ++ [fj.1]) fj.2 crl
    else if trimmed = [] then
      thinkOuter pending isEndNl rest (i + 1) chunks (i + 1) crl
    else
      (chunks, i, true, crl)

/-- `process_thinking_content`: split the pending buffer into lines, extract
complete blockquote lines as reasoning, stash an incomplete trailing line,
and report the remaining text with the `thinking_ended` flag.  Returns the
updated context, the optional reasoning chunk, the remaining text, and
whether thinking ended. -/
def processThinkingContent (ctx : ThinkCtx) : ThinkCtx × Option Str × Str × Bool :=
  let lines := linesStr ctx.pendingText
  let isEndNl := endsWithCh '\n' ctx.pendingText
  let outRes := thinkOuter ctx.pendingText isEndNl lines 0 [] 0 ctx.currentReasoningLine
  let chunks := outRes.1
  let processedLines := outRes.2.1
  let thinkingEnded := outRes.2.2.1
  let ctx := { ctx with currentReasoningLine := outRes.2.2.2 }
  let step : ThinkCtx × Option Str :=
    if chunks ≠ [] then
      let combined := joinSep ['\n'] chunks
      let rc := ctx.reasoningContent ++ combined
      let rc := if ¬ (endsWithCh '\n' rc = true) then rc ++ ['\n'] else rc
      ({ ctx with reasoningContent := rc }, some combined)
    else (ctx, (none : Option Str))
  let ctx := step.1
  let remaining :=
    if processedLines < lines.length then joinSep ['\n'] (lines.drop processedLines)
    else if ctx.currentReasoningLine ≠ [] ∧ thinkingEnded = false then
      ("> ").data ++ ctx.currentReasoningLine
    else []
  (ctx, step.2, remaining, thinkingEnded)

/-- The tail of `process_text_chunk` after trigger handling (`src/evert.rs`
lines 112–144): run the thinking extractor while in thinking mode, flush
remaining text as content once thinking ends. -/
def processTextPhase2 (ctx : ThinkCtx) (reasoningIn contentIn : Option Str) :
    ThinkCtx × Option Str × Option Str :=
  if ctx.thinkingStarted = true ∧ ctx.inThinkingMode = true then
    let res := processThinkingContent ctx
    let ctx := res.1
    let reasoningOutput := if res.2.1.isSome then res.2.1 else reasoningIn
    let ctx := { ctx with pendingText := res.2.2.1 }
    if res.2.2.2 = true then
      let ctx := { ctx with inThinkingMode := false }
      if trimStr ctx.pendingText ≠ [] then
        let contentOutput :=
          match contentIn with
          | some existing => some (existing ++ ctx.pendingText)
          | none => some ctx.pendingText
        ({ ctx with content := ctx.content ++ ctx.pendingText, pendingText := [] },
          reasoningOutput, contentOutput)
      else (ctx, reasoningOutput, contentIn)
    else (ctx, reasoningOutput, contentIn)
  else if ctx.thinkingStarted = true ∧ ¬ (ctx.inThinkingMode = true)
      ∧ trimStr ctx.pendingText ≠ [] then
    ({ ctx with content := ctx.content ++ ctx.pendingText, pendingText := [] },
      reasoningIn, some ctx.pendingText)
  else (ctx, reasoningIn, contentIn)

/-- `ThinkingProcessor::process_text_chunk`: append the new text to the
pending buffer; before the trigger fires, emit plain content; once a trigger
is found, split around it and enter thinking mode; then extract blockquote
reasoning.  Returns the updated context with the optional
`(reasoning_chunk, content_chunk)` pair. -/
def processTextChunk (ctx : ThinkCtx) (newText : Str) :
    ThinkCtx × Option Str × Option Str :=
  let ctx := { ctx with pendingText := ctx.pendingText ++ newText }
  if ¬ (ctx.thinkingStarted = true) then
    match detectThinkingStart ctx.pendingText with
    | some thinkingPos =>
      let ctx := { ctx with thinkingStarted := true, inThinkingMode := true }
      let beforeThinking := ctx.pendingText.take thinkingPos
      let afterThinking := ctx.pendingText.drop thinkingPos
      let step : ThinkCtx × Option Str :=
        if trimStr beforeThinking ≠ [] then
          ({ ctx with content := ctx.content ++ beforeThinking },
            (some beforeThinking : Option Str))
        else (ctx, none)
      let ctx := step.1
      let afterMarker :=
        if startsWithSub afterThinking (("*Thinking...*").data) = true then
          afterThinking.drop (("*Thinking...*").data).length
        else if startsWithSub afterThinking (("Thinking...").data) = true then
          afterThinking.drop (("Thinking...").data).length
        else afterThinking
      let ctx := { ctx with pendingText := afterMarker }
      processTextPhase2 ctx none step.2
    | none =>
      if trimStr ctx.pendingText ≠ [] then
        ({ ctx with content := ctx.content ++ ctx.pendingText, pendingText := [] },
          none, some ctx.pendingText)
      else (ctx, none, none)
  else processTextPhase2 ctx none none

/-! ### Request assembly (`src/poe_client.rs`) and tool validation
(`src/utils.rs`) -/

/-- Escape one character as `serde_json::to_string` renders it inside a JSON
string. -/
def escChar (c : Char) : Str :=
  if c = '"' then ['\\', '"']
  else if c = '\\' then ['\\', '\\']
  else if c = '\n' then ['\\', 'n']
  else if c = '\r' then ['\\', 'r']
  else if c = '\t' then ['\\', 't']
  else if c.toNat = 8 then ['\\', 'b']
  else if c.toNat = 12 then ['\\', 'f']
  else if c.toNat < 32 then
    ['\\', 'u', '0', '0', Nat.digitChar (c.toNat / 16), Nat.digitChar (c.toNat % 16)]
  else [c]

/-- The body of a JSON string serialization (without the surrounding
quotes). -/
def jsonEscape (s : Str) : Str := s.foldr (fun c acc => escChar c ++ acc) []

/-- Rust `str::trim_matches` for one character: strip every leading and
trailing occurrence. -/
def trimMatchesCh (c : Char) (s : Str) : Str :=
  ((s.dropWhile (· == c)).reverse.dropWhile (· == c)).reverse

/-- The text a multipart item contributes in `get_text_from_openai_content`:
text parts pass through serde serialization, quote trimming and quote
unescaping; string tool results pass through; other non-null tool results
contribute their serialization; `Other` blocks contribute their `"text"`
field. -/
def itemText : ContentItem → Option Str
  | .text _ t =>
    let processed := trimMatchesCh '"' ('"' :: (jsonEscape t ++ ['"']))
    some (replaceAll processed ['\\', '"'] ['"'])
  | .toolResult _ _ _ (.jstr s) => some s
  | .toolResult _ _ _ .jnull => none
  | .toolResult _ _ _ (.jother serialized) => some serialized
  | .other (some t) => some t
  | .other none => none
  | _ => none

/-- `get_text_from_openai_content`. -/
def getTextFromContent (content : Option OpenAiContent) : Str :=
  match content with
  | some (.text s) => s
  | some (.multi items) => joinSep ['\n'] (items.filterMap itemText)
  | none => []

/-- `extract_tool_call_id`, textual fallback part: find the literal
`tool_call_id`, then the next quoted span.  The leading
`serde_json::from_str` path of the source (a full JSON parse) is not
embedded; every theorem that involves tool validation assumes explicit
`tool_call_id` fields, so this function is never consulted there. -/
def extractToolCallId (content : Str) : Option Str :=
  match findSub (("tool_call_id").data) content with
  | none => none
  | some start =>
    match findSub ['"'] (content.drop start) with
    | none => none
    | some idStart =>
      match findSub ['"'] (content.drop (start + idStart + 1)) with
      | none => none
      | some idEnd => some ((content.drop (start + idStart + 1)).take idEnd)

/-- The ids of every `tool_calls` entry of every assistant message, in
order, as `validate_tool_sequence` collects them (set membership is all that
is consulted, so duplicates are immaterial). -/
def assistantToolCallIds (messages : List Message) : List Str :=
  messages.foldl (fun acc m =>
    if m.role = ("assistant").data then
      match m.toolCalls with
      | some tcs => acc ++ tcs.map (fun tc => tc.id)
      | none => acc
    else acc) []

/-- The id a tool message resolves to: the explicit field first, else the
content fallback. -/
def toolMessageId (m : Message) : Option Str :=
  match m.toolCallId with
  | some id => some id
  | none => extractToolCallId (getTextFromContent m.content)

/-- The per-message check loop of `validate_tool_sequence`.  The source
formats dynamic error strings; the embedded messages are the fixed stems. -/
def validateToolLoop (validIds : List Str) : List Message → Except Str Unit
  | [] => .ok ()
  | m :: rest =>
    if m.role = ("tool").data then
      match toolMessageId m with
      | none => .error (("Tool message missing tool_call_id field and cannot extract from content").data)
      | some id =>
        if id ∈ validIds then validateToolLoop validIds rest
        else .error (("Tool message references unknown tool_call_id").data)
    else validateToolLoop validIds rest

/-- `validate_tool_sequence` (`src/utils.rs`): with no tool messages,
succeed; with tool messages but no assistant tool-call ids, fail; otherwise
every tool message must resolve an id contained in the assistant set.
This helper is defined in the sources but has no caller. -/
def validateToolSequence (messages : List Message) : Except Str Unit :=
  let toolMessageCount := (messages.filter (fun m => decide (m.role = ("tool").data))).length
  if toolMessageCount = 0 then .ok ()
  else
    let validIds := assistantToolCallIds messages
    if validIds = [] then
      .error (("Tool messages present but no assistant messages with tool_calls found in conversation").data)
    else validateToolLoop validIds messages

/-- `poe_api_process::types::Attachment`. -/
structure Attachment where
  url : Str
  contentType : Option Str
deriving DecidableEq

/-- A Poe tool declaration; only the function name and description are read
by the embedded paths (`parameters` and friends are forwarded opaquely). -/
structure ChatTool where
  ttype : Str
  name : Str
  description : Option Str
deriving DecidableEq

/-- `ThinkingConfig`. -/
structure ThinkingCfg where
  budgetTokens : Option Int
deriving DecidableEq

/-- `GoogleThinkingConfig`. -/
structure GoogleThinkingCfg where
  thinkingBudget : Option Int
deriving DecidableEq

/-- `GoogleConfig`. -/
structure GoogleCfg where
  thinkingCfg : Option GoogleThinkingCfg
deriving DecidableEq

/-- `ExtraBody`. -/
structure ExtraBody where
  google : Option GoogleCfg
deriving DecidableEq

/-- The request fields that request assembly reads.  Numeric knobs that are
only forwarded (`temperature: f32`, `logit_bias` values) are carried as
integers, which no theorem inspects. -/
structure ChatCompletionRequest where
  model : Str
  messages : List Message
  temperature : Option Int
  stop : Option (List Str)
  logitBias : Option (List (Str × Int))
  stream : Option Bool
  tools : Option (List ChatTool)
  includeUsage : Option Bool
  reasoningEffort : Option Str
  thinking : Option ThinkingCfg
  extraBody : Option ExtraBody
deriving DecidableEq

/-- `ChatMessage` of the upstream request. -/
structure ChatMessage where
  role : Str
  content : Str
  attachments : Option (List Attachment)
  contentType : Str
deriving DecidableEq

/-- `poe_api_process::types::ChatToolResult`. -/
structure ChatToolResult where
  role : Str
  toolCallId : Str
  name : Str
  content : Str
deriving DecidableEq

/-- The upstream `ChatRequest`. -/
structure ChatRequest where
  version : Str
  rtype : Str
  query : List ChatMessage
  temperature : Option Int
  userId : Str
  conversationId : Str
  messageId : Str
  tools : Option (List ChatTool)
  toolCalls : Option (List ChatToolCall)
  toolResults : Option (List ChatToolResult)
  logitBias : Option (List (Str × Int))
  stopSequences : Option (List Str)
deriving DecidableEq

/-- `filter_tools_for_poe`: drop tools whose trimmed function name is empty;
tools without a description are retained; an empty remainder collapses to
`None`. -/
def filterToolsForPoe (tools : Option (List ChatTool)) : Option (List ChatTool) :=
  match tools with
  | some toolsVec =>
    let filtered := toolsVec.filter (fun t => decide (trimStr t.name ≠ []))
    if filtered = [] then none else some filtered
  | none => none

/-- Render a non-negative integer as the source formats it (only reached
for `budget ≥ 0`). -/
def intToStr (i : Int) : Str := natToStr i.toNat

/-- `process_message_content_with_suffixes`: append ` --<name>` for each
tool without a description, then ` --thinking_budget <n>` for a
non-negative configured budget, then ` --reasoning_effort <level>` for a
valid level. -/
def processMessageContentWithSuffixes (content : Str) (req : ChatCompletionRequest) : Str :=
  let c := content
  let c :=
    match req.tools with
    | some tools =>
      tools.foldl (fun acc tool =>
        let hasDescription :=
          match tool.description with
          | some d => !d.isEmpty
          | none => false
        if hasDescription then acc else acc ++ (" --").data ++ tool.name) c
    | none => c
  let thinkingBudget :=
    match req.thinking with
    | some thinking => thinking.budgetTokens
    | none =>
      match req.extraBody with
      | some extraBody => (extraBody.google.bind (fun g => g.thinkingCfg)).bind
          (fun tc => tc.thinkingBudget)
      | none => none
  let c :=
    match thinkingBudget with
    | some budget =>
      if budget ≥ 0 then c ++ (" --thinking_budget ").data ++ intToStr budget else c
    | none => c
  let c :=
    match req.reasoningEffort with
    | some effort =>
      if effort = ("low").data ∨ effort = ("medium").data ∨ effort = ("high").data then
        c ++ (" --reasoning_effort ").data ++ effort
      else c
    | none => c
  c

/-- `openai_message_to_poe`: flatten content parts into newline-joined text
and attachments, append assistant tool calls as text, prepend a tool-call-id
line, apply suffixes to a user message when the request is passed. -/
def openaiMessageToPoe (msg : Message) (roleOverride : Option Str)
    (reqParam : Option ChatCompletionRequest) : ChatMessage :=
  let base : List Str × List Attachment :=
    match msg.content with
    | some (.text s) => ([s], [])
    | some (.multi arr) =>
      arr.foldl (fun (acc : List Str × List Attachment) item =>
        match item with
        | .text _ t => (acc.1 ++ [t], acc.2)
        | .imageUrl _ url => (acc.1, acc.2 ++ [{ url := url, contentType := none }])
        | _ => acc) ([], [])
    | none => ([], [])
  let texts := base.1
  let attachments := base.2
  let texts :=
    match msg.toolCalls with
    | some toolCalls =>
      texts ++ toolCalls.map (fun tc =>
        ("Tool Call: ").data ++ tc.function.name ++ (" (").data ++ tc.id
          ++ (")\nArguments: ").data ++ tc.function.arguments)
    | none => texts
  let texts :=
    match msg.toolCallId with
    | some toolCallId => (("Tool Call ID: ").data ++ toolCallId) :: texts
    | none => texts
  let content := joinSep ['\n'] texts
  let content :=
    if msg.role = ("user").data then
      match reqParam with
      | some request => processMessageContentWithSuffixes content request
      | none => content
    else content
  { role := roleOverride.getD msg.role, content := content,
    attachments := if attachments ≠ [] then some attachments else none,
    contentType := ("text/markdown").data }

/-- The id-to-name map and deduplicated tool-call list collected from
assistant messages by `create_chat_request` (map inserts overwrite; the
accumulated list keeps the first occurrence of each id). -/
def assistantToolCallInfo (messages : List Message) :
    List (Str × Str) × List ChatToolCall :=
  messages.foldl (fun (acc : List (Str × Str) × List ChatToolCall) m =>
    if m.role = ("assistant").data then
      match m.toolCalls with
      | some toolCalls =>
        toolCalls.foldl (fun (acc2 : List (Str × Str) × List ChatToolCall) tc =>
          let idMap := treeInsert acc2.1 tc.id tc.function.name
          let accCalls :=
            if acc2.2.any (fun c => c.id == tc.id) then acc2.2 else acc2.2 ++ [tc]
          (idMap, accCalls)) acc
      | none => acc
    else acc) ([], [])

/-- The tool-result list `create_chat_request` builds from tool messages: a
message with no resolvable id is skipped (`continue`), an id absent from the
assistant map falls back to the name `"unknown"`. -/
def buildToolResults (messages : List Message) (idMap : List (Str × Str)) :
    List ChatToolResult :=
  messages.foldl (fun acc m =>
    if m.role = ("tool").data then
      match toolMessageId m with
      | none => acc
      | some toolCallId =>
        let toolName := (treeGet idMap toolCallId).getD (("unknown").data)
        acc ++ [{ role := ("tool").data, toolCallId := toolCallId,
                  name := toolName, content := getTextFromContent m.content }]
    else acc) []

/-- Map with the element index (`iter().enumerate().map`). -/
def mapIdxGo {α β : Type} (f : Nat → α → β) : Nat → List α → List β
  | _, [] => []
  | i, x :: xs => f i x :: mapIdxGo f (i + 1) xs

/-- `create_chat_request` (`src/poe_client.rs`).  The cached config is the
explicit `config` argument.  The function is total: the `CRITICAL` mismatch
checks of the source only log, and the assembled request is always
returned. -/
def createChatRequest (model : Str) (messages : List Message)
    (req : ChatCompletionRequest) (config : Config) : ChatRequest :=
  let tools := filterToolsForPoe req.tools
  let shouldReplaceResponse :=
    match assocGet config.models model with
    | some modelConfig => modelConfig.replaceResponse.getD false
    | none => false
  let toolMessageCount := (messages.filter (fun m => decide (m.role = ("tool").data))).length
  let info : List (Str × Str) × List ChatToolCall :=
    if toolMessageCount > 0 then assistantToolCallInfo messages else ([], [])
  let assistantToolCalls := if info.2 ≠ [] then some info.2 else none
  let results := if toolMessageCount > 0 then buildToolResults messages info.1 else []
  let toolResults := if results ≠ [] then some results else none
  let query := mapIdxGo (fun index msg =>
    let roleOverride : Option Str :=
      if msg.role = ("assistant").data then some (("bot").data)
      else if msg.role = ("developer").data then some (("user").data)
      else if msg.role = ("tool").data then some (("user").data)
      else if msg.role = ("system").data ∧ shouldReplaceResponse = true then
        some (("user").data)
      else none
    let isLastUserMessage := msg.role = ("user").data ∧ index = messages.length - 1
    let reqParam := if isLastUserMessage then some req else none
    openaiMessageToPoe msg roleOverride reqParam) 0 messages
  { version := ("1.1").data, rtype := ("query").data, query := query,
    temperature := req.temperature, userId := [], conversationId := [], messageId := [],
    tools := tools, toolCalls := assistantToolCalls, toolResults := toolResults,
    logitBias := req.logitBias, stopSequences := req.stop }

/-! ### Chat completion handlers (`src/handlers/chat.rs`)

SSE framing is modelled at chunk granularity: every `data: <json>\n\n`
string the source formats becomes one `Frame`; empty emitted strings become
no frames.  The tokenizer binding (`count_completion_tokens`) is external and
passed in as `countTok`; the random response id and the creation timestamp
are the explicit `id` and `created` arguments. -/

/-- A streaming delta. -/
structure Delta where
  role : Option Str
  content : Option Str
  refusal : Option Str
  toolCalls : Option (List ChatToolCall)
deriving DecidableEq

/-- One chunk choice. -/
structure Choice where
  index : Nat
  delta : Delta
  finishReason : Option Str
deriving DecidableEq

/-- `ChatCompletionChunk`. -/
structure ChatCompletionChunk where
  id : Str
  object : Str
  created : Int
  model : Str
  choices : List Choice
deriving DecidableEq

/-- The usage object attached to terminal chunks and non-stream responses. -/
structure UsageInfo where
  promptTokens : Nat
  completionTokens : Nat
  totalTokens : Nat
  cachedTokens : Nat
deriving DecidableEq

/-- Build the usage object as both handlers do. -/
def mkUsage (promptTokens completionTokens : Nat) : UsageInfo :=
  { promptTokens := promptTokens, completionTokens := completionTokens,
    totalTokens := promptTokens + completionTokens, cachedTokens := 0 }

/-- One SSE frame: a chunk (optionally with a `usage` object merged into its
JSON), the `[DONE]` marker, or the mid-stream error JSON
`{error:{message, type:"stream_error", code:"stream_error"}}`. -/
inductive Frame where
  | chunk (c : ChatCompletionChunk) (usage : Option UsageInfo)
  | doneMarker
  | errorFrame (message : Str)
deriving DecidableEq

/-- `create_stream_chunk`: an empty content with no finish reason produces a
role delta, otherwise a content delta. -/
def createStreamChunk (id : Str) (created : Int) (model : Str) (content : Str)
    (finishReason : Option Str) : ChatCompletionChunk :=
  let delta : Delta :=
    if content = [] ∧ finishReason = none then
      { role := some (("assistant").data), content := none, refusal := none, toolCalls := none }
    else
      { role := none, content := some content, refusal := none, toolCalls := none }
  { id := ("chatcmpl-").data ++ id, object := ("chat.completion.chunk").data,
    created := created, model := model,
    choices := [{ index := 0, delta := delta, finishReason := finishReason }] }

/-- The role chunk both streaming paths build by hand. -/
def roleChunk (id : Str) (created : Int) (model : Str) : ChatCompletionChunk :=
  let delta : Delta :=
    { role := some (("assistant").data), content := none, refusal := none, toolCalls := none }
  { id := ("chatcmpl-").data ++ id, object := ("chat.completion.chunk").data,
    created := created, model := model,
    choices := [{ index := 0, delta := delta, finishReason := none }] }

/-- The tool-call chunk: a delta carrying the given calls with
`finish_reason: "tool_calls"`. -/
def toolCallsChunk (id : Str) (created : Int) (model : Str)
    (toolCalls : List ChatToolCall) : ChatCompletionChunk :=
  let delta : Delta :=
    { role := none, content := none, refusal := none, toolCalls := some toolCalls }
  { id := ("chatcmpl-").data ++ id, object := ("chat.completion.chunk").data,
    created := created, model := model,
    choices := [{ index := 0, delta := delta, finishReason := some (("tool_calls").data) }] }

/-- The content chunk `handle_tool_calls_in_stream` builds by hand for a
text delta. -/
def contentChunk (id : Str) (created : Int) (model : Str) (content : Str) :
    ChatCompletionChunk :=
  let delta : Delta :=
    { role := none, content := some content, refusal := none, toolCalls := none }
  { id := ("chatcmpl-").data ++ id, object := ("chat.completion.chunk").data,
    created := created, model := model,
    choices := [{ index := 0, delta := delta, finishReason := none }] }

/-- Insert a file reference (`HashMap::insert` keyed by `inline_ref`;
iteration order of the source map is arbitrary, modelled as insertion
order). -/
def refsInsert (refs : List (Str × FileData)) (f : FileData) : List (Str × FileData) :=
  match refs with
  | [] => [(f.inlineRef, f)]
  | (k, v) :: rest =>
    if k = f.inlineRef then (f.inlineRef, f) :: rest else (k, v) :: refsInsert rest f

/-- Replace every `[<inline_ref>]` marker with `(<url>)`, one reference
after the other, as all handlers do. -/
def applyFileRefs (refs : List (Str × FileData)) (content : Str) : Str :=
  refs.foldl (fun acc r =>
    replaceAll acc ('[' :: (r.1 ++ [']'])) ('(' :: (r.2.url ++ [')']))) content

/-- Whether an event is `Done` (the initial loops mark and skip these). -/
def isDoneEv : ChatEvent → Bool
  | .done => true
  | _ => false

/-- State accumulated over the initial events of
`handle_non_stream_response`.  `earlyError` freezes the state, modelling the
source `return` on an `Error` event. -/
structure NSInit where
  replaceResponse : Bool
  fullContent : Str
  toolCalls : List ChatToolCall
  fileRefs : List (Str × FileData)
  hasDone : Bool
  earlyError : Option (Nat × OpenAIErrorResponse)
deriving DecidableEq

/-- The empty initial state. -/
def nsInit0 : NSInit :=
  { replaceResponse := false, fullContent := [], toolCalls := [], fileRefs := [],
    hasDone := false, earlyError := none }

/-- One step of the non-stream initial loop (its `Error` arm renders
unconditionally). -/
def nsInitStep (st : NSInit) (e : ChatEvent) : NSInit :=
  if st.earlyError.isSome then st
  else
    match e with
    | .replaceResponse t => { st with replaceResponse := true, fullContent := t }
    | .text t =>
      if st.replaceResponse then st else { st with fullContent := st.fullContent ++ t }
    | .file f => { st with fileRefs := refsInsert st.fileRefs f }
    | .json (some toolCalls) => { st with toolCalls := st.toolCalls ++ toolCalls }
    | .json none => st
    | .error t allowRetry => { st with earlyError := some (convertPoeErrorToOpenai t allowRetry) }
    | .done => { st with hasDone := true }

/-- The background collection loop of `handle_replace_response`: keep the
latest `ReplaceResponse`, append every `Text` (first or later), collect
files, stop at `Done`; other events are ignored. -/
def replLoop : List ChatEvent → Str → List (Str × FileData) → Str × List (Str × FileData)
  | [], content, refs => (content, refs)
  | e :: rest, content, refs =>
    match e with
    | .replaceResponse t => replLoop rest t refs
    | .text t => replLoop rest (content ++ t) refs
    | .file f => replLoop rest content (refsInsert refs f)
    | .done => (content, refs)
    | _ => replLoop rest content refs

/-- `handle_replace_response`: when a `Done` was already seen the event
stream is skipped; the final content has its file references resolved. -/
def handleReplaceResponse (events : List ChatEvent) (initialContent : Str)
    (initialRefs : List (Str × FileData)) (alreadyHasDone : Bool) : Str :=
  let cr :=
    if alreadyHasDone then (initialContent, initialRefs)
    else replLoop events initialContent initialRefs
  applyFileRefs cr.2 cr.1

/-- The standard non-stream event loop: append text, collect files and tool
calls, stop at `Done`, abort on `Error` (returning the converted response
and the tool calls collected so far). -/
def nsLoop : List ChatEvent → Str → List (Str × FileData) → List ChatToolCall →
    Except ((Nat × OpenAIErrorResponse) × List ChatToolCall)
      (Str × List (Str × FileData) × List ChatToolCall)
  | [], c, refs, tcs => .ok (c, refs, tcs)
  | e :: rest, c, refs, tcs =>
    match e with
    | .text t => nsLoop rest (c ++ t) refs tcs
    | .file f => nsLoop rest c (refsInsert refs f) tcs
    | .json (some newToolCalls) => nsLoop rest c refs (tcs ++ newToolCalls)
    | .json none => nsLoop rest c refs tcs
    | .error t allowRetry => .error (convertPoeErrorToOpenai t allowRetry, tcs)
    | .done => .ok (c, refs, tcs)
    | .replaceResponse _ => nsLoop rest c refs tcs

/-- The assistant message of a non-stream response. -/
structure CompletionMessage where
  role : Str
  content : Str
  refusal : Option Str
  toolCalls : Option (List ChatToolCall)
deriving DecidableEq

/-- One non-stream choice. -/
structure CompletionChoice where
  index : Nat
  message : CompletionMessage
  finishReason : Option Str
deriving DecidableEq

/-- `ChatCompletionResponse`. -/
structure ChatCompletionResponse where
  id : Str
  object : Str
  created : Int
  model : Str
  choices : List CompletionChoice
  usage : Option UsageInfo
deriving DecidableEq

/-- What the non-stream handler renders: an OpenAI error body with its
status, or a response. -/
inductive NSOutcome where
  | errorResp (status : Nat) (body : OpenAIErrorResponse)
  | success (resp : ChatCompletionResponse)
deriving DecidableEq

/-- The non-stream handler result together with the internal state the
claims speak about: the collected tool-call list at response time and the
replace-mode flag. -/
structure NSResult where
  outcome : NSOutcome
  collected : List ChatToolCall
  replaceMode : Bool
deriving DecidableEq

/-- `handle_non_stream_response`: pull up to three initial events (marking
and skipping `Done`), fold them, resolve file references, then either the
ReplaceResponse path (content from `handle_replace_response`, `finish_reason
:= "stop"`, no tool calls) or the standard path (drain the remainder,
`finish_reason := "tool_calls"` iff tool calls were collected).  In the
source the replace path draws a fresh random id; here both paths use `id`. -/
def handleNonStreamResponse (countTok : Str → Nat) (id : Str) (created : Int)
    (model : Str) (includeUsage : Bool) (promptTokens : Nat)
    (events : List ChatEvent) : NSResult :=
  let first3 := events.take 3
  let hasDone := first3.any isDoneEv
  let firstThree := first3.filter (fun e => !isDoneEv e)
  let st := firstThree.foldl nsInitStep { nsInit0 with hasDone := hasDone }
  match st.earlyError with
  | some err =>
    { outcome := .errorResp err.1 err.2, collected := st.toolCalls,
      replaceMode := st.replaceResponse }
  | none =>
    let fullContent := applyFileRefs st.fileRefs st.fullContent
    if st.replaceResponse then
      let content := handleReplaceResponse (events.drop 3) fullContent st.fileRefs st.hasDone
      let completionTokens := if includeUsage then countTok content else 0
      let message : CompletionMessage :=
        { role := ("assistant").data, content := content, refusal := none, toolCalls := none }
      let resp : ChatCompletionResponse :=
        { id := ("chatcmpl-").data ++ id, object := ("chat.completion").data,
          created := created, model := model,
          choices := [{ index := 0, message := message, finishReason := some (("stop").data) }],
          usage := if includeUsage then some (mkUsage promptTokens completionTokens)
                   else none }
      { outcome := .success resp, collected := st.toolCalls, replaceMode := true }
    else
      match nsLoop (events.drop 3) fullContent st.fileRefs st.toolCalls with
      | .error (err, tcs) =>
        { outcome := .errorResp err.1 err.2, collected := tcs, replaceMode := false }
      | .ok (c, refs, tcs) =>
        let responseContent := applyFileRefs refs c
        let completionTokens := if includeUsage then countTok responseContent else 0
        let finishReason :=
          if tcs ≠ [] then ("tool_calls").data else ("stop").data
        let message : CompletionMessage :=
          { role := ("assistant").data, content := responseContent, refusal := none,
            toolCalls := if tcs = [] then none else some tcs }
        let resp : ChatCompletionResponse :=
          { id := ("chatcmpl-").data ++ id, object := ("chat.completion").data,
            created := created, model := model,
            choices := [{ index := 0, message := message, finishReason := some finishReason }],
            usage := if includeUsage then some (mkUsage promptTokens completionTokens)
                     else none }
        { outcome := .success resp, collected := tcs, replaceMode := false }

/-- State threaded through the standard streaming unfold: the accumulated
text (for usage accounting), the file references, and the done latch. -/
structure StreamState where
  accText : Str
  refs : List (Str × FileData)
  isDone : Bool
deriving DecidableEq

/-- One iteration of the standard streaming unfold
(`src/handlers/chat.rs` lines 552–729): the frames emitted for the event and
the successor state.  With `hasToolCalls` set, `Text` events only accumulate
and emit nothing. -/
def streamStep (countTok : Str → Nat) (id : Str) (created : Int) (model : Str)
    (includeUsage : Bool) (promptTokens : Nat) (hasToolCalls : Bool)
    (st : StreamState) (e : ChatEvent) : List Frame × StreamState :=
  match e with
  | .text t =>
    let textToSend := applyFileRefs st.refs t
    let st2 := { st with accText := st.accText ++ textToSend }
    if !hasToolCalls then
      ([.chunk (createStreamChunk id created model textToSend none) none], st2)
    else ([], st2)
  | .file f => ([], { st with refs := refsInsert st.refs f })
  | .json (some toolCalls) => ([.chunk (toolCallsChunk id created model toolCalls) none], st)
  | .json none => ([], st)
  | .error t _ => ([.errorFrame t, .doneMarker], { st with isDone := true })
  | .done =>
    let completionTokens := if includeUsage then countTok st.accText else 0
    let finishReason := if hasToolCalls then ("tool_calls").data else ("stop").data
    let finalChunk := createStreamChunk id created model [] (some finishReason)
    let usage := if includeUsage then some (mkUsage promptTokens completionTokens) else none
    ([.chunk finalChunk usage, .doneMarker], { st with isDone := true })
  | .replaceResponse _ => ([], st)

/-- The standard streaming unfold over the remaining events: after the done
latch is set the stream ends and later events are not consumed. -/
def streamRun (countTok : Str → Nat) (id : Str) (created : Int) (model : Str)
    (includeUsage : Bool) (promptTokens : Nat) (hasToolCalls : Bool) :
    List ChatEvent → StreamState → List Frame
  | [], _ => []
  | e :: rest, st =>
    if st.isDone then []
    else
      let fs := streamStep countTok id created model includeUsage promptTokens hasToolCalls st e
      fs.1 ++ streamRun countTok id created model includeUsage promptTokens hasToolCalls rest fs.2

/-- The collection loop over the up-to-three initial events of
`handle_stream_response`: the tool-call flag, the latest initial tool-call
list, and the done flag. -/
def streamCollect (events3 : List ChatEvent) : Bool × List ChatToolCall × Bool :=
  events3.foldl (fun (acc : Bool × List ChatToolCall × Bool) e =>
    match e with
    | .done => (acc.1, acc.2.1, true)
    | .json (some toolCalls) => (true, toolCalls, acc.2.2)
    | _ => acc) (false, [], false)

/-- State of the stream initial processing loop; unlike the non-stream loop,
its `Error` arm only renders when not in replace mode. -/
structure SInit where
  replaceResponse : Bool
  fullContent : Str
  fileRefs : List (Str × FileData)
  hasToolCalls : Bool
  hasDone : Bool
  earlyError : Option (Nat × OpenAIErrorResponse)
deriving DecidableEq

/-- One step of the stream initial loop. -/
def sInitStep (st : SInit) (e : ChatEvent) : SInit :=
  if st.earlyError.isSome then st
  else
    match e with
    | .replaceResponse t => { st with replaceResponse := true, fullContent := t }
    | .text t =>
      if st.replaceResponse then st else { st with fullContent := st.fullContent ++ t }
    | .file f => { st with fileRefs := refsInsert st.fileRefs f }
    | .json (some _) => { st with hasToolCalls := true }
    | .json none => st
    | .error t allowRetry =>
      if st.replaceResponse then st
      else { st with earlyError := some (convertPoeErrorToOpenai t allowRetry) }
    | .done => { st with hasDone := true }

/-- The unfold of `handle_tool_calls_in_stream`: text deltas pass through,
tool calls are collected; at `Done` either the collected calls are sent with
`finish_reason: "tool_calls"`, or a terminal chunk whose reason depends on
the initial calls; other events emit nothing. -/
def tcsLoop (id : Str) (created : Int) (model : Str) (initialToolCalls : List ChatToolCall) :
    List ChatEvent → List ChatToolCall → List Frame
  | [], _ => []
  | e :: rest, toolCalls =>
    match e with
    | .text t => .chunk (contentChunk id created model t) none :: tcsLoop id created model initialToolCalls rest toolCalls
    | .json (some newToolCalls) => tcsLoop id created model initialToolCalls rest (toolCalls ++ newToolCalls)
    | .json none => tcsLoop id created model initialToolCalls rest toolCalls
    | .done =>
      if toolCalls ≠ [] then [.chunk (toolCallsChunk id created model toolCalls) none]
      else
        let finishReason :=
          if initialToolCalls ≠ [] then ("tool_calls").data else ("stop").data
        [.chunk (createStreamChunk id created model [] (some finishReason)) none]
    | _ => tcsLoop id created model initialToolCalls rest toolCalls

/-- `handle_tool_calls_in_stream`: role chunk, the initial tool calls (when
any), the initial content (when non-empty), then the unfold, then `[DONE]`
(appended unconditionally by the chained done part). -/
def handleToolCallsInStream (id : Str) (created : Int) (model : Str)
    (events : List ChatEvent) (initialContent : Str)
    (initialToolCalls : List ChatToolCall) : List Frame :=
  let toolMessage : List Frame :=
    if initialToolCalls ≠ [] then
      [.chunk (toolCallsChunk id created model initialToolCalls) none]
    else []
  let contentMessage : List Frame :=
    if initialContent ≠ [] then [.chunk (contentChunk id created model initialContent) none]
    else []
  ([.chunk (roleChunk id created model) none] ++ toolMessage ++ contentMessage)
    ++ tcsLoop id created model initialToolCalls events [] ++ [.doneMarker]

/-- What `handle_stream_response` renders: an early HTTP error response, or
the SSE frame sequence. -/
inductive StreamOutcome where
  | earlyError (status : Nat) (body : OpenAIErrorResponse)
  | frames (fs : List Frame)
deriving DecidableEq

/-- `handle_stream_response` (`src/handlers/chat.rs`): collect up to three
initial events, fold them (an `Error` before any `ReplaceResponse` renders
the converted HTTP error and returns), resolve file references, then one of
the three paths: the ReplaceResponse tool-call path, the ReplaceResponse
single-message path, or the standard path (role chunk, optional initial
tool-call or content chunk, then either the immediate termination when tool
calls and `Done` were both seen, or the unfold over the remaining
events). -/
def handleStreamResponse (countTok : Str → Nat) (id : Str) (created : Int)
    (model : Str) (includeUsage : Bool) (promptTokens : Nat)
    (events : List ChatEvent) : StreamOutcome :=
  let first3 := events.take 3
  let collected := streamCollect first3
  let firstTwo := first3.filter (fun e => !isDoneEv e)
  let st0 : SInit :=
    { replaceResponse := false, fullContent := [], fileRefs := [],
      hasToolCalls := collected.1, hasDone := collected.2.2, earlyError := none }
  let st := firstTwo.foldl sInitStep st0
  match st.earlyError with
  | some err => .earlyError err.1 err.2
  | none =>
    let fullContent := applyFileRefs st.fileRefs st.fullContent
    if st.replaceResponse then
      if st.hasToolCalls then
        .frames (handleToolCallsInStream id created model (events.drop 3) fullContent
          collected.2.1)
      else
        let content := handleReplaceResponse (events.drop 3) fullContent st.fileRefs st.hasDone
        let completionTokens := if includeUsage then countTok content else 0
        let contentFrame := Frame.chunk (createStreamChunk id created model content none) none
        let finalChunk := createStreamChunk id created model [] (some (("stop").data))
        let usage :=
          if includeUsage then some (mkUsage promptTokens completionTokens) else none
        .frames [contentFrame, .chunk finalChunk usage, .doneMarker]
    else
      let toolMessage : List Frame :=
        if st.hasToolCalls ∧ collected.2.1 ≠ [] then
          [.chunk (toolCallsChunk id created model collected.2.1) none]
        else []
      let contentMessage : List Frame :=
        if fullContent ≠ [] ∧ ¬ (st.hasToolCalls = true) then
          [.chunk (createStreamChunk id created model fullContent none) none]
        else []
      let initialMessages : List Frame :=
        if st.hasToolCalls then [.chunk (roleChunk id created model) none] ++ toolMessage
        else if contentMessage ≠ [] then
          [.chunk (roleChunk id created model) none] ++ contentMessage
        else [.chunk (roleChunk id created model) none]
      if st.hasToolCalls ∧ st.hasDone then
        let completionTokens := if includeUsage then countTok fullContent else 0
        let doneMessage : List Frame :=
          if includeUsage then
            [.chunk (createStreamChunk id created model [] (some (("tool_calls").data)))
              (some (mkUsage promptTokens completionTokens)), .doneMarker]
          else [.doneMarker]
        .frames (initialMessages ++ doneMessage)
      else
        .frames (initialMessages
          ++ streamRun countTok id created model includeUsage promptTokens st.hasToolCalls
            (events.drop 3)
            { accText := fullContent, refs := st.fileRefs, isDone := false })

/-- Whether a frame carries a non-empty content delta (what a client renders
as assistant text). -/
def frameHasRealContent (f : Frame) : Bool :=
  match f with
  | .chunk c _ =>
    c.choices.any (fun ch =>
      match ch.delta.content with
      | some s => !s.isEmpty
      | none => false)
  | _ => false

/-- Whether a frame is a terminal chunk (no tool calls, a finish reason)
whose finish reason differs from the one the initial tool-call flag
dictates. -/
def terminalMismatch (hasToolCalls : Bool) (f : Frame) : Bool :=
  match f with
  | .chunk c _ =>
    c.choices.any (fun ch =>
      match ch.delta.toolCalls, ch.finishReason with
      | none, some fr =>
        decide (fr ≠ (if hasToolCalls then ("tool_calls").data else ("stop").data))
      | _, _ => false)
  | _ => false

/-- The finish reason of a rendered non-stream response (none for an error
rendering). -/
def nsFinishReason (r : NSResult) : Option Str :=
  match r.outcome with
  | .success resp =>
    match resp.choices with
    | [ch] => ch.finishReason
    | _ => none
  | .errorResp _ _ => none

/-- Whether the non-stream handler rendered an error. -/
def nsIsError (r : NSResult) : Bool :=
  match r.outcome with
  | .errorResp _ _ => true
  | .success _ => false

/-! ### Claim theorems: cache (C5, C6, C8) -/

/-! ### Claim theorem: thinking sub-parser (C4) -/

/-! ### Claim theorems: configuration loading (C10) and model mapping (C7) -/

/-! ### Claim theorems: early quota error (C1) -/

/-! ### Claim theorems: finish reason (C2) and tool-call content
suppression (C9) -/

/-! ### Claim theorems: tool-result integrity (C3) -/

theorem digitsVal_append (xs : Str) (c : Char) :
    digitsVal (xs ++ [c]) = 10 * digitsVal xs + digitVal c := by
  simp [digitsVal, List.foldl_append]

theorem digitChar_spec : ∀ m, m < 10 →
    (Nat.digitChar m).isDigit = true ∧ digitVal (Nat.digitChar m) = m := by
  decide

theorem natToStrGo_spec : ∀ fuel n, n < fuel →
    (natToStrGo fuel n).all (·.isDigit) = true ∧
    digitsVal (natToStrGo fuel n) = n ∧ natToStrGo fuel n ≠ [] := by
  intro fuel
  induction fuel with
  | zero => intro n hn; omega
  | succ f ih =>
    intro n hn
    by_cases h10 : n < 10
    · have hd := digitChar_spec n h10
      have hd2 : digitVal n.digitChar = n := hd.2
      simp only [digitVal] at hd2
      simp [natToStrGo, h10, List.all_cons, hd.1, digitsVal, digitVal, hd2]
    · have hpos : 0 < n := by omega
      have hdivlt : n / 10 < n := Nat.div_lt_self hpos (by omega)
      have hdf : n / 10 < f := by omega
      have hrec := ih (n / 10) hdf
      have hd := digitChar_spec (n % 10) (Nat.mod_lt n (by omega))
      constructor
      · simp [natToStrGo, h10, List.all_append, hrec.1, hd.1]
      · constructor
        · rw [natToStrGo]
          simp only [h10, if_false]
          rw [digitsVal_append, hrec.2.1, hd.2]
          omega
        · simp [natToStrGo, h10]

theorem natToStr_all_digit (n : Nat) : (natToStr n).all (·.isDigit) = true :=
  (natToStrGo_spec (n + 1) n (by omega)).1

theorem natToStr_ne_nil (n : Nat) : natToStr n ≠ [] :=
  (natToStrGo_spec (n + 1) n (by omega)).2.2

theorem strToNat_natToStr (n : Nat) : strToNat (natToStr n) = some n := by
  have h := natToStrGo_spec (n + 1) n (by omega)
  have hne : (natToStr n).isEmpty = false := by
    cases hcase : natToStr n with
    | nil => exact absurd hcase h.2.2
    | cons a l => simp
  simp only [strToNat, natToStr] at *
  rw [hne]
  simp only [Bool.false_eq_true, if_false]
  rw [if_pos h.1]
  exact congrArg some h.2.1

theorem natToStr_no_colon (n : Nat) : ∀ c ∈ natToStr n, c ≠ ':' := by
  intro c hc
  have h := natToStr_all_digit n
  rw [List.all_eq_true] at h
  have := h c hc
  intro hcol
  rw [hcol] at this
  simp [Char.isDigit] at this

theorem splitCh_ne_nil (c : Char) (s : Str) : splitCh c s ≠ [] := by
  cases s with
  | nil => simp [splitCh]
  | cons x xs =>
    rw [splitCh]
    cases splitCh c xs with
    | nil => simp
    | cons h t =>
      by_cases hx : x = c <;> simp [hx]

theorem splitCh_of_not_mem (c : Char) (s : Str) (h : ∀ a ∈ s, a ≠ c) :
    splitCh c s = [s] := by
  induction s with
  | nil => rfl
  | cons x xs ih =>
    have hx : x ≠ c := h x (by simp)
    have hxs : splitCh c xs = [xs] := ih (fun a ha => h a (by simp [ha]))
    rw [splitCh, hxs]
    simp [hx]

theorem splitCh_append_sep (c : Char) (p m : Str) (h : ∀ a ∈ p, a ≠ c) :
    splitCh c (p ++ c :: m) = p :: splitCh c m := by
  induction p with
  | nil =>
    rw [List.nil_append, splitCh]
    cases hm : splitCh c m with
    | nil => exact absurd hm (splitCh_ne_nil c m)
    | cons hh tt => simp
  | cons x xs ih =>
    have hx : x ≠ c := h x (by simp)
    have hxs := ih (fun a ha => h a (by simp [ha]))
    rw [List.cons_append, splitCh, hxs]
    simp [hx]

theorem splitCh_append_last (c : Char) (u s : Str) (h : ∀ a ∈ s, a ≠ c) :
    splitCh c (u ++ c :: s) = splitCh c u ++ [s] := by
  induction u with
  | nil =>
    have hs := splitCh_of_not_mem c s h
    simp [splitCh, hs]
  | cons x xs ih =>
    rw [List.cons_append, splitCh, ih]
    cases hxs : splitCh c xs with
    | nil => exact absurd hxs (splitCh_ne_nil c xs)
    | cons hh tt =>
      rw [splitCh, hxs]
      by_cases hx : x = c <;> simp [hx]

theorem joinSep_splitCh (c : Char) (u : Str) : joinSep [c] (splitCh c u) = u := by
  induction u with
  | nil => rfl
  | cons x xs ih =>
    rw [splitCh]
    cases hxs : splitCh c xs with
    | nil => exact absurd hxs (splitCh_ne_nil c xs)
    | cons hh tt =>
      rw [hxs] at ih
      by_cases hx : x = c
      · subst hx
        simp only [if_pos rfl]
        cases tt with
        | nil => simp_all [joinSep]
        | cons a b => simp_all [joinSep]
      · simp only [if_neg hx]
        cases tt with
        | nil => simp_all [joinSep]
        | cons a b => simp_all [joinSep]

theorem treeGet_treeInsert_self (t : Tree) (k v : Str) :
    treeGet (treeInsert t k v) k = some v := by
  induction t with
  | nil => simp [treeInsert, treeGet]
  | cons e rest ih =>
    obtain ⟨k0, v0⟩ := e
    by_cases h : k0 = k <;> simp [treeInsert, treeGet, h, ih]

theorem treeInsert_treeInsert (t : Tree) (k v₁ v₂ : Str) :
    treeInsert (treeInsert t k v₁) k v₂ = treeInsert t k v₂ := by
  induction t with
  | nil => simp [treeInsert]
  | cons e rest ih =>
    obtain ⟨k0, v0⟩ := e
    by_cases h : k0 = k <;> simp [treeInsert, h, ih]

theorem splitCh_fmtValue (e : Nat) (u : Str) (s : Nat) :
    splitCh ':' (fmtValue e u s) = natToStr e :: (splitCh ':' u ++ [natToStr s]) := by
  rw [fmtValue, splitCh_append_sep ':' (natToStr e) _ (natToStr_no_colon e),
    splitCh_append_last ':' u (natToStr s) (natToStr_no_colon s)]

theorem fmtValue_parts_length (e : Nat) (u : Str) (s : Nat) :
    (splitCh ':' (fmtValue e u s)).length ≥ 3 := by
  rw [splitCh_fmtValue]
  have := List.length_pos.mpr (splitCh_ne_nil ':' u)
  simp
  omega

theorem fmtValue_parts_head (e : Nat) (u : Str) (s : Nat) :
    (splitCh ':' (fmtValue e u s)).headD [] = natToStr e := by
  rw [splitCh_fmtValue]; rfl

theorem fmtValue_parts_last (e : Nat) (u : Str) (s : Nat) :
    (splitCh ':' (fmtValue e u s)).getLastD [] = natToStr s := by
  rw [splitCh_fmtValue]
  have h : (natToStr e :: (splitCh ':' u ++ [natToStr s])).getLast? = some (natToStr s) := by
    rw [← List.cons_append, List.getLast?_concat]
  rw [List.getLastD_eq_getLast?, h]
  rfl

theorem fmtValue_parts_mid (e : Nat) (u : Str) (s : Nat) :
    joinSep [':'] (((splitCh ':' (fmtValue e u s)).drop 1).dropLast) = u := by
  rw [splitCh_fmtValue]
  simp only [List.drop_succ_cons, List.drop_zero, List.dropLast_concat]
  exact joinSep_splitCh ':' u

theorem checkAndControl_id (maxBytes : Nat) (db : DB) (h : sumSizes db ≤ maxBytes) :
    checkAndControl maxBytes db = db := by
  have h' : ¬ ((collectEntries db).map szOf).sum > maxBytes := by
    simp only [sumSizes] at h
    omega
  simp only [checkAndControl]
  rw [if_neg h']

theorem collectTree_treeInsert_sum (isUrls : Bool) (t : Tree) (k v₁ v₂ : Str)
    (a b : Nat × Bool × Str × Nat)
    (h₁ : entryOf isUrls (k, v₁) = some a) (h₂ : entryOf isUrls (k, v₂) = some b)
    (hsz : szOf a = szOf b) :
    ((collectTree isUrls (treeInsert t k v₁)).map szOf).sum
    = ((collectTree isUrls (treeInsert t k v₂)).map szOf).sum := by
  induction t with
  | nil => simp [collectTree, treeInsert, h₁, h₂, hsz]
  | cons kv rest ih =>
    obtain ⟨k0, v0⟩ := kv
    by_cases h : k0 = k
    · simp [collectTree, treeInsert, h, h₁, h₂, hsz]
    · cases h0 : entryOf isUrls (k0, v0) with
      | none => simpa [collectTree, treeInsert, h, h0] using ih
      | some c => simpa [collectTree, treeInsert, h, h0] using ih

theorem sumSizes_insert_urls_sz (db : DB) (k v₁ v₂ : Str)
    (a b : Nat × Bool × Str × Nat)
    (h₁ : entryOf true (k, v₁) = some a) (h₂ : entryOf true (k, v₂) = some b)
    (hsz : szOf a = szOf b) :
    sumSizes { db with urls := treeInsert db.urls k v₁ }
    = sumSizes { db with urls := treeInsert db.urls k v₂ } := by
  simp only [sumSizes, collectEntries, List.map_append, List.sum_append]
  rw [collectTree_treeInsert_sum true db.urls k v₁ v₂ a b h₁ h₂ hsz]

theorem entryOf_fmtValue (isUrls : Bool) (k : Str) (e : Nat) (u : Str) (s : Nat) :
    entryOf isUrls (k, fmtValue e u s) = some (e, isUrls, k, s) := by
  rw [entryOf]
  simp only
  rw [if_pos (fmtValue_parts_length e u s), fmtValue_parts_head, fmtValue_parts_last,
    strToNat_natToStr, strToNat_natToStr]

/-- A `get` at or past the stored expiry deletes the entry and misses. -/
theorem getCachedUrl_expired (ttl maxBytes : Nat) (k : Str) (t : Nat) (db2 : DB)
    (e z : Nat) (v : Str)
    (hget : treeGet db2.urls (urlKey k) = some (fmtValue e v z)) (hexp : e ≤ t) :
    getCachedUrl ttl maxBytes k t db2
    = (none, { db2 with urls := treeRemove db2.urls (urlKey k) }) := by
  rw [getCachedUrl]
  simp only [hget]
  rw [if_pos (fmtValue_parts_length e v z), fmtValue_parts_head, strToNat_natToStr]
  simp only
  rw [if_neg (by omega)]

/-- A fresh `put` followed by a `get` before expiry hits with the stored pair
and re-inserts with the refreshed expiry, provided the recorded sizes fit the
budget so that maintenance deletes nothing. -/
theorem getCachedUrl_hit (ttl maxBytes : Nat) (k u : Str) (s : Nat) (t₀ t₁ : Nat) (db : DB)
    (hsum : sumSizes (cacheUrlInsert ttl k u s t₀ db) ≤ maxBytes)
    (hfresh : t₁ < t₀ + ttl) :
    (getCachedUrl ttl maxBytes k t₁ (cacheUrl ttl maxBytes k u s t₀ db)).1 = some (u, s) ∧
    treeGet ((getCachedUrl ttl maxBytes k t₁ (cacheUrl ttl maxBytes k u s t₀ db)).2).urls
      (urlKey k) = some (fmtValue (t₁ + ttl) u s) := by
  have hins : cacheUrl ttl maxBytes k u s t₀ db = cacheUrlInsert ttl k u s t₀ db := by
    rw [cacheUrl, checkAndControl_id maxBytes _ hsum]
  have hget : treeGet (cacheUrlInsert ttl k u s t₀ db).urls (urlKey k)
      = some (fmtValue (t₀ + ttl) u s) := by
    rw [cacheUrlInsert]
    exact treeGet_treeInsert_self _ _ _
  have hsum2 : sumSizes (cacheUrlInsert ttl k u s t₁ (cacheUrlInsert ttl k u s t₀ db))
      ≤ maxBytes := by
    have hrw : cacheUrlInsert ttl k u s t₁ (cacheUrlInsert ttl k u s t₀ db)
        = { db with urls := treeInsert db.urls (urlKey k) (fmtValue (t₁ + ttl) u s) } := by
      simp [cacheUrlInsert, treeInsert_treeInsert]
    rw [hrw]
    have heq := sumSizes_insert_urls_sz db (urlKey k)
      (fmtValue (t₁ + ttl) u s) (fmtValue (t₀ + ttl) u s)
      (t₁ + ttl, true, urlKey k, s) (t₀ + ttl, true, urlKey k, s)
      (entryOf_fmtValue true (urlKey k) (t₁ + ttl) u s)
      (entryOf_fmtValue true (urlKey k) (t₀ + ttl) u s) rfl
    rw [heq]
    exact hsum
  have hmain : getCachedUrl ttl maxBytes k t₁ (cacheUrl ttl maxBytes k u s t₀ db)
      = (some (u, s), cacheUrl ttl maxBytes k u s t₁ (cacheUrlInsert ttl k u s t₀ db)) := by
    rw [hins, getCachedUrl]
    simp only [hget]
    rw [if_pos (fmtValue_parts_length (t₀ + ttl) u s), fmtValue_parts_head, strToNat_natToStr]
    simp only
    rw [if_pos (by omega : t₀ + ttl > t₁), fmtValue_parts_last, strToNat_natToStr,
      fmtValue_parts_mid]
  refine ⟨by rw [hmain], ?_⟩
  rw [hmain]
  simp only
  rw [cacheUrl, checkAndControl_id maxBytes _ hsum2, cacheUrlInsert]
  exact treeGet_treeInsert_self _ _ _

theorem entryOf_fields (isUrls : Bool) (kv : Str × Str) (a : CEntry)
    (h : entryOf isUrls kv = some a) : a.2.1 = isUrls ∧ a.2.2.1 = kv.1 := by
  simp only [entryOf] at h
  split at h
  · split at h
    · split at h
      · injection h with h
        subst h
        exact ⟨rfl, rfl⟩
      · exact absurd h (by simp)
    · exact absurd h (by simp)
  · exact absurd h (by simp)

theorem mem_collectTree_key (isUrls : Bool) (t : Tree) (a : CEntry)
    (h : a ∈ collectTree isUrls t) : a.2.2.1 ∈ t.map Prod.fst := by
  rw [collectTree, List.mem_filterMap] at h
  obtain ⟨kv, hkv, he⟩ := h
  have := (entryOf_fields isUrls kv a he).2
  rw [this]
  exact List.mem_map_of_mem Prod.fst hkv

theorem mem_collectTree_flag (isUrls : Bool) (t : Tree) (a : CEntry)
    (h : a ∈ collectTree isUrls t) : a.2.1 = isUrls := by
  rw [collectTree, List.mem_filterMap] at h
  obtain ⟨kv, _, he⟩ := h
  exact (entryOf_fields isUrls kv a he).1

theorem collectTree_pairwise_key (isUrls : Bool) (t : Tree)
    (hnod : (t.map Prod.fst).Nodup) :
    (collectTree isUrls t).Pairwise (fun a b => a.2.2.1 ≠ b.2.2.1) := by
  induction t with
  | nil => simp [collectTree]
  | cons kv rest ih =>
    simp only [List.map_cons, List.nodup_cons] at hnod
    have ihr := ih hnod.2
    rw [collectTree, List.filterMap_cons]
    cases he : entryOf isUrls kv with
    | none => exact ihr
    | some a =>
      refine List.Pairwise.cons ?_ ihr
      intro b hb
      have ha := (entryOf_fields isUrls kv a he).2
      have hbk := mem_collectTree_key isUrls rest b hb
      rw [ha]
      intro hcontr
      rw [← hcontr] at hbk
      exact hnod.1 hbk

theorem collectEntries_pairwise (db : DB) (hwf : WFdb db) :
    (collectEntries db).Pairwise (fun a b => keyOf a ≠ keyOf b) := by
  rw [collectEntries, List.pairwise_append]
  refine ⟨?_, ?_, ?_⟩
  · exact (collectTree_pairwise_key true db.urls hwf.1).imp
      (fun h hc => h (congrArg Prod.snd hc))
  · exact (collectTree_pairwise_key false db.base64 hwf.2).imp
      (fun h hc => h (congrArg Prod.snd hc))
  · intro a ha b hb
    have h1 := mem_collectTree_flag true db.urls a ha
    have h2 := mem_collectTree_flag false db.base64 b hb
    simp [keyOf, h1, h2]

theorem treeRemove_keeps (t : Tree) (k : Str) (hall : ∀ kv ∈ t, kv.1 ≠ k) :
    treeRemove t k = t := by
  rw [treeRemove, List.filter_eq_self]
  intro kv hkv
  simp [hall kv hkv]

theorem collectTree_remove_sum (isUrls : Bool) (t : Tree) (a : CEntry)
    (hnod : (t.map Prod.fst).Nodup) (ha : a ∈ collectTree isUrls t) :
    ((collectTree isUrls (treeRemove t a.2.2.1)).map szOf).sum + szOf a
    = ((collectTree isUrls t).map szOf).sum := by
  induction t with
  | nil => simp [collectTree] at ha
  | cons kv rest ih =>
    simp only [List.map_cons, List.nodup_cons] at hnod
    have hrest_all : ∀ e ∈ rest, e.1 ≠ kv.1 := by
      intro e he hcontr
      exact hnod.1 (hcontr ▸ List.mem_map_of_mem Prod.fst he)
    cases he : entryOf isUrls kv with
    | some b =>
      have hct : collectTree isUrls (kv :: rest) = b :: collectTree isUrls rest := by
        simp [collectTree, List.filterMap_cons, he]
      rw [hct] at ha
      rcases List.mem_cons.mp ha with hab | har
      · subst hab
        have hk := (entryOf_fields isUrls kv a he).2
        have hrem : treeRemove (kv :: rest) a.2.2.1 = rest := by
          rw [hk, treeRemove, List.filter_cons]
          rw [show (decide (kv.1 ≠ kv.1)) = false by simp]
          simp only [Bool.false_eq_true, if_false]
          exact List.filter_eq_self.mpr (fun e hes => by simp [hrest_all e hes])
        rw [hrem, hct]
        simp only [List.map_cons, List.sum_cons]
        omega
      · have hak : a.2.2.1 ∈ rest.map Prod.fst := mem_collectTree_key isUrls rest a har
        have hne : kv.1 ≠ a.2.2.1 := by
          intro hcontr
          rw [← hcontr] at hak
          exact hnod.1 hak
        have hrem : treeRemove (kv :: rest) a.2.2.1 = kv :: treeRemove rest a.2.2.1 := by
          rw [treeRemove, List.filter_cons]
          rw [show (decide (kv.1 ≠ a.2.2.1)) = true by simp [hne]]
          rfl
        have hct2 : collectTree isUrls (kv :: treeRemove rest a.2.2.1)
            = b :: collectTree isUrls (treeRemove rest a.2.2.1) := by
          simp [collectTree, List.filterMap_cons, he]
        rw [hrem, hct2, hct]
        have hih := ih hnod.2 har
        simp only [List.map_cons, List.sum_cons]
        omega
    | none =>
      have hct : collectTree isUrls (kv :: rest) = collectTree isUrls rest := by
        simp [collectTree, List.filterMap_cons, he]
      rw [hct] at ha
      have hak : a.2.2.1 ∈ rest.map Prod.fst := mem_collectTree_key isUrls rest a ha
      have hne : kv.1 ≠ a.2.2.1 := by
        intro hcontr
        rw [← hcontr] at hak
        exact hnod.1 hak
      have hrem : treeRemove (kv :: rest) a.2.2.1 = kv :: treeRemove rest a.2.2.1 := by
        rw [treeRemove, List.filter_cons]
        rw [show (decide (kv.1 ≠ a.2.2.1)) = true by simp [hne]]
        rfl
      have hct2 : collectTree isUrls (kv :: treeRemove rest a.2.2.1)
          = collectTree isUrls (treeRemove rest a.2.2.1) := by
        simp [collectTree, List.filterMap_cons, he]
      rw [hrem, hct2, hct]
      exact ih hnod.2 ha

theorem mem_collectTree_remove (isUrls : Bool) (t : Tree) (b : CEntry) (k : Str)
    (hb : b ∈ collectTree isUrls t) (hne : b.2.2.1 ≠ k) :
    b ∈ collectTree isUrls (treeRemove t k) := by
  rw [collectTree, List.mem_filterMap] at hb
  obtain ⟨kv, hkv, he⟩ := hb
  rw [collectTree, List.mem_filterMap]
  refine ⟨kv, ?_, he⟩
  rw [treeRemove, List.mem_filter]
  have hkey := (entryOf_fields isUrls kv b he).2
  refine ⟨hkv, by simp [← hkey, hne]⟩

theorem treeRemove_keys_nodup (t : Tree) (k : Str) (h : (t.map Prod.fst).Nodup) :
    ((treeRemove t k).map Prod.fst).Nodup := by
  have hsub : List.Sublist ((treeRemove t k).map Prod.fst) (t.map Prod.fst) :=
    (List.filter_sublist (l := t)).map Prod.fst
  exact h.sublist hsub

theorem sumSizes_split (db : DB) :
    sumSizes db = ((collectTree true db.urls).map szOf).sum
      + ((collectTree false db.base64).map szOf).sum := by
  simp [sumSizes, collectEntries]

theorem delLoop_step_sum (db : DB) (e : CEntry) (hwf : WFdb db)
    (he : e ∈ collectEntries db) :
    sumSizes (if e.2.1 then { db with urls := treeRemove db.urls e.2.2.1 }
      else { db with base64 := treeRemove db.base64 e.2.2.1 }) + szOf e = sumSizes db := by
  rcases List.mem_append.mp he with hu | hb
  · have hflag : e.2.1 = true := mem_collectTree_flag true db.urls e hu
    rw [hflag]
    simp only [if_pos]
    rw [sumSizes_split, sumSizes_split]
    simp only
    have := collectTree_remove_sum true db.urls e hwf.1 hu
    omega
  · have hflag : e.2.1 = false := mem_collectTree_flag false db.base64 e hb
    rw [hflag]
    simp only [Bool.false_eq_true, if_false]
    rw [sumSizes_split, sumSizes_split]
    simp only
    have := collectTree_remove_sum false db.base64 e hwf.2 hb
    omega

theorem delLoop_step_mem (db : DB) (e b : CEntry)
    (hb : b ∈ collectEntries db) (hne : keyOf b ≠ keyOf e) :
    b ∈ collectEntries (if e.2.1 then { db with urls := treeRemove db.urls e.2.2.1 }
      else { db with base64 := treeRemove db.base64 e.2.2.1 }) := by
  rcases List.mem_append.mp hb with hu | hbb
  · have hflag : b.2.1 = true := mem_collectTree_flag true db.urls b hu
    by_cases hef : e.2.1 = true
    · rw [hef]
      simp only [if_pos]
      rw [collectEntries]
      refine List.mem_append.mpr (Or.inl ?_)
      refine mem_collectTree_remove true db.urls b e.2.2.1 hu ?_
      intro hkey
      exact hne (by simp [keyOf, hflag, hef, hkey])
    · simp only [hef, Bool.false_eq_true, if_false]
      exact List.mem_append.mpr (Or.inl hu)
  · have hflag : b.2.1 = false := mem_collectTree_flag false db.base64 b hbb
    by_cases hef : e.2.1 = true
    · rw [hef]
      simp only [if_pos]
      exact List.mem_append.mpr (Or.inr hbb)
    · simp only [hef, Bool.false_eq_true, if_false]
      rw [collectEntries]
      refine List.mem_append.mpr (Or.inr ?_)
      refine mem_collectTree_remove false db.base64 b e.2.2.1 hbb ?_
      intro hkey
      have hef2 : e.2.1 = false := by
        cases hval : e.2.1
        · rfl
        · exact absurd hval hef
      exact hne (by simp [keyOf, hflag, hef2, hkey])

theorem delLoop_step_wf (db : DB) (e : CEntry) (hwf : WFdb db) :
    WFdb (if e.2.1 then { db with urls := treeRemove db.urls e.2.2.1 }
      else { db with base64 := treeRemove db.base64 e.2.2.1 }) := by
  by_cases hef : e.2.1 = true
  · rw [hef]
    simp only [if_pos]
    exact ⟨treeRemove_keys_nodup db.urls e.2.2.1 hwf.1, hwf.2⟩
  · simp only [hef, Bool.false_eq_true, if_false]
    exact ⟨hwf.1, treeRemove_keys_nodup db.base64 e.2.2.1 hwf.2⟩

theorem delLoop_bound : ∀ (es : List CEntry) (db : DB) (btf : Nat),
    es.Pairwise (fun a b => keyOf a ≠ keyOf b) →
    (∀ e ∈ es, e ∈ collectEntries db) → WFdb db →
    sumSizes (delLoop es db btf) + min btf ((es.map szOf).sum) ≤ sumSizes db := by
  intro es
  induction es with
  | nil =>
    intro db btf _ _ _
    simp [delLoop]
  | cons e rest ih =>
    intro db btf hpw hmem hwf
    rw [delLoop]
    by_cases h0 : btf = 0
    · subst h0
      simp
    · rw [if_neg h0]
      have hpw_e := List.pairwise_cons.mp hpw
      have he := hmem e (by simp)
      have hsum := delLoop_step_sum db e hwf he
      have hih := ih _ (btf - szOf e) hpw_e.2
        (fun b hb => delLoop_step_mem db e b (hmem b (by simp [hb]))
          (fun hc => hpw_e.1 b hb (by rw [hc])))
        (delLoop_step_wf db e hwf)
      simp only [List.map_cons, List.sum_cons]
      omega

theorem insByExp_perm (x : CEntry) (l : List CEntry) :
    (insByExp x l).Perm (x :: l) := by
  induction l with
  | nil => simp [insByExp]
  | cons y ys ih =>
    rw [insByExp]
    by_cases h : y.1 ≤ x.1
    · rw [if_pos h]
      exact (ih.cons y).trans (List.Perm.swap x y ys)
    · rw [if_neg h]

theorem sortByExp_perm_aux : ∀ (l acc : List CEntry),
    (l.foldl (fun acc x => insByExp x acc) acc).Perm (acc ++ l) := by
  intro l
  induction l with
  | nil => simp
  | cons x xs ih =>
    intro acc
    rw [List.foldl_cons]
    refine (ih (insByExp x acc)).trans ?_
    refine (((insByExp_perm x acc).append_right xs).trans ?_)
    exact List.perm_middle.symm.trans (by simp [List.perm_middle])

theorem sortByExp_perm (l : List CEntry) : (sortByExp l).Perm l := by
  simpa using sortByExp_perm_aux l []

theorem mem_keys_treeInsert (t : Tree) (k v : Str) (x : Str)
    (h : x ∈ (treeInsert t k v).map Prod.fst) : x ∈ t.map Prod.fst ∨ x = k := by
  induction t with
  | nil =>
    simp [treeInsert] at h
    exact Or.inr h
  | cons kv rest ih =>
    rw [treeInsert] at h
    by_cases hk : kv.1 = k
    · rw [if_pos hk] at h
      simp at h
      rcases h with h | h
      · exact Or.inr h
      · exact Or.inl (by simp [h])
    · rw [if_neg hk] at h
      simp at h
      rcases h with h | h
      · exact Or.inl (by simp [h])
      · rcases ih (by simpa using h) with h2 | h2
        · exact Or.inl (by simp; exact Or.inr (by simpa using h2))
        · exact Or.inr h2

theorem treeInsert_keys_nodup (t : Tree) (k v : Str) (h : (t.map Prod.fst).Nodup) :
    ((treeInsert t k v).map Prod.fst).Nodup := by
  induction t with
  | nil => simp [treeInsert]
  | cons kv rest ih =>
    simp only [List.map_cons, List.nodup_cons] at h
    rw [treeInsert]
    by_cases hk : kv.1 = k
    · rw [if_pos hk]
      simp only [List.map_cons, List.nodup_cons]
      exact ⟨by rw [← hk]; exact h.1, h.2⟩
    · rw [if_neg hk]
      simp only [List.map_cons, List.nodup_cons]
      refine ⟨?_, ih h.2⟩
      intro hmem
      rcases mem_keys_treeInsert rest k v kv.1 hmem with h2 | h2
      · exact h.1 h2
      · exact hk h2

/-- After a `cache_url` put, the maintenance pass leaves the joint recorded
size within the byte budget; when the size after insertion exceeded the
budget, the pass frees the excess plus a floored tenth of the budget. -/
theorem cacheUrl_budget (ttl maxBytes : Nat) (orig poe : Str) (size now : Nat) (db : DB)
    (hwf : WFdb db) :
    sumSizes (cacheUrl ttl maxBytes orig poe size now db) ≤ maxBytes ∧
    (maxBytes < sumSizes (cacheUrlInsert ttl orig poe size now db) →
      sumSizes (cacheUrl ttl maxBytes orig poe size now db) + maxBytes / 10 ≤ maxBytes) := by
  have hwf2 : WFdb (cacheUrlInsert ttl orig poe size now db) := by
    constructor
    · exact treeInsert_keys_nodup db.urls (urlKey orig) _ hwf.1
    · exact hwf.2
  set ins := cacheUrlInsert ttl orig poe size now db with hins
  by_cases hle : sumSizes ins ≤ maxBytes
  · rw [cacheUrl, ← hins, checkAndControl_id maxBytes ins hle]
    exact ⟨hle, fun h => absurd h (by omega)⟩
  · have hgt : sumSizes ins > maxBytes := by omega
    have hunf : cacheUrl ttl maxBytes orig poe size now db
        = delLoop (sortByExp (collectEntries ins)) ins
          (sumSizes ins - maxBytes + maxBytes / 10) := by
      rw [cacheUrl, ← hins]
      simp only [checkAndControl]
      rw [if_pos (by simp only [sumSizes] at hgt; omega)]
      rfl
    have hperm := sortByExp_perm (collectEntries ins)
    have hbound := delLoop_bound (sortByExp (collectEntries ins)) ins
      (sumSizes ins - maxBytes + maxBytes / 10)
      (hperm.pairwise_iff (fun h => (h ∘ Eq.symm)) |>.mpr
        (collectEntries_pairwise ins hwf2))
      (fun e he => hperm.mem_iff.mp he)
      hwf2
    have hsum_es : ((sortByExp (collectEntries ins)).map szOf).sum = sumSizes ins := by
      rw [sumSizes]
      exact (hperm.map szOf).sum_eq
    rw [hsum_es] at hbound
    rw [hunf]
    have hdiv : maxBytes / 10 ≤ maxBytes := Nat.div_le_self maxBytes 10
    constructor
    · omega
    · intro _
      omega

theorem findSub_semi_none (pat l : Str) (hl : ∀ c ∈ l, c ≠ ';') :
    findSub (';' :: pat) l = none := by
  induction l with
  | nil => simp [findSub]
  | cons c rest ih =>
    rw [findSub]
    have hc : c ≠ ';' := hl c (by simp)
    have hpre : (';' :: pat).isPrefixOf (c :: rest) = false := by
      simp [List.isPrefixOf]
      intro h
      exact absurd h.symm hc
    rw [hpre]
    simp only [Bool.false_eq_true, if_false]
    rw [ih (fun a ha => hl a (by simp [ha]))]
    rfl

theorem splitSubGo_succ (pat : Str) (f : Nat) (s : Str) :
    splitSubGo pat (f + 1) s
    = match findSub pat s with
      | none => [s]
      | some i => s.take i :: splitSubGo pat f (s.drop (i + pat.length)) := rfl

/-- The decoded-size estimate for a well-formed PNG data URI whose payload is
free of semicolons: the floored three quarters of the payload length. -/
theorem estimateBase64Size_dataUrl (payload : Str) (hp : ∀ c ∈ payload, c ≠ ';') :
    estimateBase64Size (("data:image/png;base64,").data ++ payload)
    = 3 * payload.length / 4 := by
  have hsep : ((";base64,").data : Str) = ';' :: ("base64,").data := rfl
  have hnone : findSub ((";base64,").data) payload = none := by
    rw [hsep]
    exact findSub_semi_none _ payload hp
  have hfind : findSub ((";base64,").data) (("data:image/png;base64,").data ++ payload)
      = some 14 := by
    show findSub ([';', 'b', 'a', 's', 'e', '6', '4', ','])
      ('d' :: 'a' :: 't' :: 'a' :: ':' :: 'i' :: 'm' :: 'a' :: 'g' :: 'e' :: '/' :: 'p' ::
        'n' :: 'g' :: ';' :: 'b' :: 'a' :: 's' :: 'e' :: '6' :: '4' :: ',' :: payload) = some 14
    simp [findSub, List.isPrefixOf]
  have hlen : (("data:image/png;base64,").data ++ payload).length
      = (21 + payload.length) + 1 := by
    simp
    omega
  have hdrop : (("data:image/png;base64,").data ++ payload).drop
      (14 + ((";base64,").data : Str).length) = payload := by
    rw [show 14 + ((";base64,").data : Str).length
        = (("data:image/png;base64,").data : Str).length by rfl]
    exact List.drop_left _ _
  have hfuel2 : (21 + payload.length) = (20 + payload.length) + 1 := by omega
  rw [estimateBase64Size, splitSub]
  rw [if_neg (by decide : ¬ (((";base64,").data : Str) = []))]
  rw [hlen, splitSubGo_succ, hfind]
  simp only
  rw [hdrop, hfuel2, splitSubGo_succ, hnone]
  rfl

/-- C5 counterexample: the round trip fails as universally stated.  A put
whose recorded size exceeds the byte budget (here 11 over a 10-byte budget)
triggers maintenance that immediately evicts the entry just stored, so the
`get` within the TTL misses even though `put(k,u,s)` just ran. -/
theorem claim5_counterexample :
    (getCachedUrl 5 10 (("k").data) 1
      (cacheUrl 5 10 (("k").data) (("u").data) 11 0 emptyDB)).1 = none
    ∧ (1 : Nat) < 0 + 5 := by
  constructor
  · rfl
  · decide

/-- C5 amended: the round trip law holds whenever the insertion respects the
byte budget (so maintenance deletes nothing).  Then a `get` before expiry
returns the stored pair and re-inserts with expiry refreshed to the read
time plus the TTL; and a `get` at or past the stored expiry deletes the
entry and misses. -/
theorem claim5_cacheRoundTrip (ttl maxBytes : Nat) (k u : Str) (s : Nat) (t₀ t₁ : Nat)
    (db : DB) (hsum : sumSizes (cacheUrlInsert ttl k u s t₀ db) ≤ maxBytes)
    (hfresh : t₁ < t₀ + ttl) :
    (getCachedUrl ttl maxBytes k t₁ (cacheUrl ttl maxBytes k u s t₀ db)).1 = some (u, s) ∧
    treeGet ((getCachedUrl ttl maxBytes k t₁ (cacheUrl ttl maxBytes k u s t₀ db)).2).urls
      (urlKey k) = some (fmtValue (t₁ + ttl) u s) ∧
    (∀ (db2 : DB) (e z t : Nat) (v : Str),
      treeGet db2.urls (urlKey k) = some (fmtValue e v z) → e ≤ t →
      getCachedUrl ttl maxBytes k t db2
        = (none, { db2 with urls := treeRemove db2.urls (urlKey k) })) := by
  refine ⟨(getCachedUrl_hit ttl maxBytes k u s t₀ t₁ db hsum hfresh).1,
    (getCachedUrl_hit ttl maxBytes k u s t₀ t₁ db hsum hfresh).2, ?_⟩
  intro db2 e z t v hget hexp
  exact getCachedUrl_expired ttl maxBytes k t db2 e z v hget hexp

/-- C5 witness: the round trip at concrete values (ttl 5, budget 10, size 3,
put at 0, get at 1). -/
theorem claim5_witness :
    (getCachedUrl 5 10 (("k").data) 1
      (cacheUrl 5 10 (("k").data) (("u").data) 3 0 emptyDB)).1 = some ((("u").data), 3) :=
  (claim5_cacheRoundTrip 5 10 (("k").data) (("u").data) 3 0 1 emptyDB (by decide)
    (by decide)).1

/-- C6 counterexample: a put into the `base64` namespace runs no size
maintenance, so the joint recorded size can exceed the budget (11 recorded
bytes against a 10-byte budget). -/
theorem claim6_counterexample :
    sumSizes (cacheBase64 5 (("h").data) (("u").data) 11 0 emptyDB) = 11
    ∧ ¬ sumSizes (cacheBase64 5 (("h").data) (("u").data) 11 0 emptyDB) ≤ 10 := by
  constructor
  · rfl
  · decide

/-- C6 amended: only `cache_url` triggers size maintenance.  After a put
into `urls` on a well-formed store the joint recorded size is at most
`max_bytes`; when the size after insertion exceeded the budget, the
maintenance pass brings it down to at most `max_bytes - ⌊max_bytes/10⌋`
(the source frees the excess plus a floored tenth of the budget, deleting
smallest-expiry entries first). -/
theorem claim6_evictionBudget (ttl maxBytes : Nat) (orig poe : Str) (size now : Nat)
    (db : DB) (hwf : WFdb db) :
    sumSizes (cacheUrl ttl maxBytes orig poe size now db) ≤ maxBytes ∧
    (maxBytes < sumSizes (cacheUrlInsert ttl orig poe size now db) →
      sumSizes (cacheUrl ttl maxBytes orig poe size now db) + maxBytes / 10 ≤ maxBytes) :=
  cacheUrl_budget ttl maxBytes orig poe size now db hwf

/-- C6 witness: an oversized put into `urls` (11 recorded bytes against a
10-byte budget) is evicted down to the headroom bound. -/
theorem claim6_witness :
    sumSizes (cacheUrl 5 10 (("k").data) (("u").data) 11 0 emptyDB) ≤ 10 ∧
    sumSizes (cacheUrl 5 10 (("k").data) (("u").data) 11 0 emptyDB) + 10 / 10 ≤ 10 :=
  ⟨(claim6_evictionBudget 5 10 (("k").data) (("u").data) 11 0 emptyDB (by decide)).1,
   (claim6_evictionBudget 5 10 (("k").data) (("u").data) 11 0 emptyDB (by decide)).2
     (by decide)⟩

/-- C8 counterexample: the recorded size is the truncated product, not the
ceiling.  For the payload `"AB"` (length 2) the source records
`(2 · 0.75) as usize = 1`, while `ceil(2 · 0.75) = 2`. -/
theorem claim8_counterexample :
    estimateBase64Size (("data:image/png;base64,AB").data) = 1 ∧ (3 * 2 + 3) / 4 = 2 := by
  constructor
  · rfl
  · decide

/-- C8 amended: for a data URI with a semicolon-free payload the recorded
size is `⌊0.75 · L⌋ = 3·L/4` (floored), `L` the payload length; a string
without the `";base64,"` separator records size 0. -/
theorem claim8_base64SizeEstimate (payload : Str) (hp : ∀ c ∈ payload, c ≠ ';') :
    estimateBase64Size (("data:image/png;base64,").data ++ payload)
      = 3 * payload.length / 4
    ∧ (∀ s : Str, findSub ((";base64,").data) s = none → estimateBase64Size s = 0) := by
  refine ⟨estimateBase64Size_dataUrl payload hp, ?_⟩
  intro s hnone
  rw [estimateBase64Size, splitSub]
  rw [if_neg (by decide : ¬ (((";base64,").data : Str) = []))]
  cases hl : s.length with
  | zero =>
    have : s = [] := List.length_eq_zero.mp hl
    subst this
    rfl
  | succ n =>
    rw [splitSubGo_succ, hnone]
    rfl

/-- C8 witness: a four-character payload records three bytes. -/
theorem claim8_witness :
    estimateBase64Size (("data:image/png;base64,").data ++ (("AAAA").data)) = 3 * 4 / 4 :=
  (claim8_base64SizeEstimate (("AAAA").data) (by decide)).1

/-- C4: feeding the sub-parser a prefix with the `*Thinking...*` trigger,
then the blockquote lines `> foo` and `> bar` each ended by a newline, then
the non-blockquote line `Z`, yields the prefix `A` as a content chunk, then
the reasoning chunk `foo\nbar` with `reasoning_content` left as
`foo\nbar\n` (trailing newline guaranteed), then `Z` as a content chunk, in
that order; the bytes before the trigger never reach the reasoning
output. -/
theorem claim4_thinkingTrigger :
    (processTextChunk emptyThinkCtx (("A*Thinking...*").data)).2
      = (none, some (("A").data))
    ∧ (processTextChunk (processTextChunk emptyThinkCtx (("A*Thinking...*").data)).1
        (("> foo\n> bar\n").data)).2 = (some (("foo\nbar").data), none)
    ∧ (processTextChunk (processTextChunk (processTextChunk emptyThinkCtx
        (("A*Thinking...*").data)).1 (("> foo\n> bar\n").data)).1 (("Z").data)).2
      = (none, some (("Z").data))
    ∧ (processTextChunk (processTextChunk (processTextChunk emptyThinkCtx
        (("A*Thinking...*").data)).1 (("> foo\n> bar\n").data)).1
        (("Z").data)).1.reasoningContent = ("foo\nbar\n").data
    ∧ containsSub (("foo\nbar\n").data) (("A").data) = false := by
  refine ⟨rfl, rfl, rfl, rfl, by decide⟩

/-- C10: configuration loading is total.  Whatever the sled cache and the
filesystem hold, `get_cached_config` returns a config: the default one on
any full failure (sled miss or failure combined with a missing-file error
path, unreadable file, or YAML parse failure), else the cached or the parsed
config.  A missing `models.yaml` already yields the default from the loader
itself. -/
theorem claim10_configLoadingTotal (sled : SledConfigRead) (yaml : YamlState) :
    ((sled = .empty ∨ sled = .readFail) → (yaml = .unreadable ∨ yaml = .malformed) →
      getCachedConfig sled yaml = defaultConfig)
    ∧ (getCachedConfig sled yaml = defaultConfig
      ∨ (∃ c, sled = .found c ∧ getCachedConfig sled yaml = c)
      ∨ (∃ c, yaml = .parsed c ∧ getCachedConfig sled yaml = c)) := by
  constructor
  · intro hsled hyaml
    rcases hsled with h | h <;> subst h <;>
      rcases hyaml with h2 | h2 <;> subst h2 <;> rfl
  · cases sled with
    | found c => exact Or.inr (Or.inl ⟨c, rfl, rfl⟩)
    | empty =>
      cases yaml with
      | missing => exact Or.inl rfl
      | unreadable => exact Or.inl rfl
      | malformed => exact Or.inl rfl
      | parsed c => exact Or.inr (Or.inr ⟨c, rfl, rfl⟩)
    | readFail =>
      cases yaml with
      | missing => exact Or.inl rfl
      | unreadable => exact Or.inl rfl
      | malformed => exact Or.inl rfl
      | parsed c => exact Or.inr (Or.inr ⟨c, rfl, rfl⟩)

/-- C10 witness: a sled read failure combined with a YAML parse failure
yields the default configuration. -/
theorem claim10_witness : getCachedConfig .readFail .malformed = defaultConfig :=
  (claim10_configLoadingTotal .readFail .malformed).1 (Or.inr rfl) (Or.inr rfl)

theorem find_unique {α : Type} (p : α → Bool) (l : List α) (x : α)
    (hx : x ∈ l) (hpx : p x = true) (huniq : ∀ y ∈ l, p y = true → y = x) :
    l.find? p = some x := by
  induction l with
  | nil => simp at hx
  | cons h t ih =>
    by_cases hph : p h = true
    · have : h = x := huniq h (by simp) hph
      subst this
      simp [List.find?, hph]
    · have hph2 : p h = false := by
        cases hval : p h
        · rfl
        · exact absurd hval hph
      rw [List.find?, hph2]
      rcases List.mem_cons.mp hx with hhx | hxt
      · exact absurd (hhx ▸ hpx) hph
      · exact ih hxt (fun y hy hpy => huniq y (by simp [hy]) hpy)

/-- C7: model mapping.  With the config enabled and a unique entry `X` whose
`mapping` equals the requested id case-insensitively, the request is sent
upstream under `X` while the display model stays the requested id (so every
chunk and response built from it carries the requested id, as
`create_stream_chunk` shows); with no matching mapping, the requested id is
used upstream as-is. -/
theorem claim7_modelMapping (config : Config) (requested : Str) :
    (∀ (X : Str) (mc : ModelConfig) (Y : Str),
      config.enable.getD false = true →
      (X, mc) ∈ config.models → mc.mapping = some Y →
      toLowerStr Y = toLowerStr requested →
      (∀ p ∈ config.models, ∀ Z, p.2.mapping = some Z →
        toLowerStr Z = toLowerStr requested → p = (X, mc)) →
      resolveModelMapping config requested = (requested, X)
      ∧ ∀ (id : Str) (created : Int) (content : Str) (fr : Option Str),
        (createStreamChunk id created ((resolveModelMapping config requested).1) content
          fr).model = requested)
    ∧ ((∀ p ∈ config.models, ∀ Z, p.2.mapping = some Z →
        toLowerStr Z ≠ toLowerStr requested) →
      resolveModelMapping config requested = (requested, requested)) := by
  constructor
  · intro X mc Y henable hmem hmap hlow huniq
    have hfind : config.models.find? (fun ent =>
        match ent.2.mapping with
        | some mapping => toLowerStr mapping == toLowerStr requested
        | none => false) = some (X, mc) := by
      refine find_unique _ _ (X, mc) hmem ?_ ?_
      · simp only [hmap]
        exact beq_iff_eq.mpr hlow
      · intro y hy hpy
        cases hcase : y.2.mapping with
        | none => rw [hcase] at hpy; simp at hpy
        | some Z =>
          rw [hcase] at hpy
          exact huniq y hy Z hcase (beq_iff_eq.mp hpy)
    have hres : resolveModelMapping config requested = (requested, X) := by
      rw [resolveModelMapping, if_pos henable]
      simp only [hfind]
    refine ⟨hres, ?_⟩
    intro id created content fr
    rw [hres]
    by_cases hc : content = [] ∧ fr = none <;> simp [createStreamChunk, hc]
  · intro hnone
    by_cases henable : config.enable.getD false = true
    · have hfind : config.models.find? (fun ent =>
          match ent.2.mapping with
          | some mapping => toLowerStr mapping == toLowerStr requested
          | none => false) = none := by
        rw [List.find?_eq_none]
        intro p hp
        cases hcase : p.2.mapping with
        | none => simp [hcase]
        | some Z =>
          simp only [hcase]
          intro hbeq
          exact hnone p hp Z hcase (beq_iff_eq.mp hbeq)
      rw [resolveModelMapping, if_pos henable]
      simp only [hfind]
      cases hget : assocGet config.models requested with
      | none => rfl
      | some modelConfig =>
        simp only [hget]
        cases modelConfig.mapping <;> rfl
    · rw [resolveModelMapping, if_neg henable]

/-- C7 witness: a one-entry config mapping `claude` to the alias `best`;
requesting `best` routes upstream as `claude` and displays `best`; with the
mapping removed the id passes through. -/
theorem claim7_witness :
    resolveModelMapping
      { enable := some true,
        models := [((("claude").data),
          { mapping := some (("Best").data), replaceResponse := none, enable := none })],
        customModels := none, apiToken := none, useV1Api := none } (("best").data)
      = ((("best").data), (("claude").data)) :=
  ((claim7_modelMapping _ (("best").data)).1 (("claude").data)
    { mapping := some (("Best").data), replaceResponse := none, enable := none }
    (("Best").data) (by decide) (by decide) rfl (by decide) (by decide)).1

theorem sInitStep_frozen (st : SInit) (e : ChatEvent) (h : st.earlyError.isSome = true) :
    sInitStep st e = st := by
  simp only [sInitStep]
  rw [if_pos h]

theorem foldl_sInitStep_frozen (l : List ChatEvent) (st : SInit)
    (h : st.earlyError.isSome = true) : List.foldl sInitStep st l = st := by
  induction l with
  | nil => rfl
  | cons e rest ih =>
    rw [List.foldl_cons, sInitStep_frozen st e h]
    exact ih

theorem nsInitStep_frozen (st : NSInit) (e : ChatEvent) (h : st.earlyError.isSome = true) :
    nsInitStep st e = st := by
  simp only [nsInitStep]
  rw [if_pos h]

theorem foldl_nsInitStep_frozen (l : List ChatEvent) (st : NSInit)
    (h : st.earlyError.isSome = true) : List.foldl nsInitStep st l = st := by
  induction l with
  | nil => rfl
  | cons e rest ih =>
    rw [List.foldl_cons, nsInitStep_frozen st e h]
    exact ih

/-- C1 counterexample: the quota-exhaustion text has no dedicated mapping in
the sources; as the first upstream event it is classified by the generic
fallback of `convert_poe_error_to_openai` and rendered as HTTP 400 with
`type = "invalid_request"` and `code = "bad_request"`, not as the claimed
429 `insufficient_quota` body. -/
theorem claim1_counterexample :
    handleStreamResponse (fun _ => 0) (("x").data) 0 (("m").data) false 0
      [.error (("This bot needs more points to answer your request.").data) false]
      = .earlyError 400
        { error := { message := (("This bot needs more points to answer your request.").data),
                     etype := (("invalid_request").data), code := (("bad_request").data),
                     param := none } }
    ∧ ∀ body : OpenAIErrorResponse,
        handleStreamResponse (fun _ => 0) (("x").data) 0 (("m").data) false 0
          [.error (("This bot needs more points to answer your request.").data) false]
        ≠ .earlyError 429 body := by
  constructor
  · rfl
  · intro body hcontr
    have h400 : handleStreamResponse (fun _ => 0) (("x").data) 0 (("m").data) false 0
        [.error (("This bot needs more points to answer your request.").data) false]
        = .earlyError 400
          { error := { message := (("This bot needs more points to answer your request.").data),
                       etype := (("invalid_request").data), code := (("bad_request").data),
                       param := none } } := rfl
    rw [h400] at hcontr
    injection hcontr with hs hb
    exact absurd hs (by decide)

/-- C1 amended: when the very first upstream event is an `Error` whose text
matches none of the four special patterns (`Internal server error`,
`rate limit`, `Invalid token`/`Unauthorized`, `Bot does not exist`) — the
quota-exhaustion phrase matches none — both handlers answer HTTP 400 with
body `{error:{message:<the upstream text>, type:"invalid_request",
code:"bad_request", param:null}}`. -/
theorem claim1_quotaErrorMapsTo400 (countTok : Str → Nat) (id : Str) (created : Int)
    (model : Str) (includeUsage : Bool) (promptTokens : Nat)
    (t : Str) (ar : Bool) (rest : List ChatEvent)
    (h1 : containsSub t (("Internal server error").data) = false)
    (h2 : containsSub t (("rate limit").data) = false)
    (h3 : containsSub t (("Invalid token").data) = false)
    (h4 : containsSub t (("Unauthorized").data) = false)
    (h5 : containsSub t (("Bot does not exist").data) = false) :
    handleStreamResponse countTok id created model includeUsage promptTokens
      (.error t ar :: rest)
      = .earlyError 400
        { error := { message := t, etype := (("invalid_request").data),
                     code := (("bad_request").data), param := none } }
    ∧ (handleNonStreamResponse countTok id created model includeUsage promptTokens
        (.error t ar :: rest)).outcome
      = .errorResp 400
        { error := { message := t, etype := (("invalid_request").data),
                     code := (("bad_request").data), param := none } } := by
  have hconv : convertPoeErrorToOpenai t ar
      = (400, { error := { message := t, etype := (("invalid_request").data),
                           code := (("bad_request").data), param := none } }) := by
    simp [convertPoeErrorToOpenai, h1, h2, h3, h4, h5]
  constructor
  · rw [handleStreamResponse]
    have htake : (ChatEvent.error t ar :: rest).take 3 = .error t ar :: rest.take 2 := rfl
    rw [htake, List.filter_cons]
    simp only [isDoneEv, Bool.not_false, if_pos]
    rw [List.foldl_cons]
    have hstep : ∀ st0 : SInit, st0.replaceResponse = false → st0.earlyError = none →
        sInitStep st0 (.error t ar)
          = { st0 with earlyError := some (convertPoeErrorToOpenai t ar) } := by
      intro st0 hrep hee
      simp [sInitStep, hee, hrep]
    rw [hstep _ rfl rfl, foldl_sInitStep_frozen _ _ (by simp), hconv]
  · rw [handleNonStreamResponse]
    have htake : (ChatEvent.error t ar :: rest).take 3 = .error t ar :: rest.take 2 := rfl
    rw [htake, List.filter_cons]
    simp only [isDoneEv, Bool.not_false, if_pos]
    rw [List.foldl_cons]
    have hstep : ∀ st0 : NSInit, st0.replaceResponse = false → st0.earlyError = none →
        nsInitStep st0 (.error t ar)
          = { st0 with earlyError := some (convertPoeErrorToOpenai t ar) } := by
      intro st0 hrep hee
      simp [nsInitStep, hee, hrep]
    rw [hstep _ rfl rfl, foldl_nsInitStep_frozen _ _ (by simp), hconv]

/-- C1 witness: the quota phrase at the head of the stream, with both
handlers answering 400 `invalid_request`/`bad_request`. -/
theorem claim1_witness :
    handleStreamResponse (fun _ => 0) (("x").data) 0 (("m").data) false 0
      [.error (("This bot needs more points to answer your request.").data) false]
      = .earlyError 400
        { error := { message := (("This bot needs more points to answer your request.").data),
                     etype := (("invalid_request").data), code := (("bad_request").data),
                     param := none } } :=
  (claim1_quotaErrorMapsTo400 (fun _ => 0) (("x").data) 0 (("m").data) false 0
    (("This bot needs more points to answer your request.").data) false []
    (by decide) (by decide) (by decide) (by decide) (by decide)).1

/-- C9: in the standard streaming path with the tool-call flag set by the
initial events, a `Text` event emits nothing — the (reference-resolved)
text is only appended to the internal accumulator used for token counting —
and no frame of the whole remaining unfold ever carries a non-empty content
delta. -/
theorem claim9_toolCallsSuppressContent :
    (∀ (countTok : Str → Nat) (id : Str) (created : Int) (model : Str)
      (includeUsage : Bool) (promptTokens : Nat) (st : StreamState) (t : Str),
      streamStep countTok id created model includeUsage promptTokens true st (.text t)
        = ([], { st with accText := st.accText ++ applyFileRefs st.refs t }))
    ∧ (∀ (countTok : Str → Nat) (id : Str) (created : Int) (model : Str)
      (includeUsage : Bool) (promptTokens : Nat) (events : List ChatEvent)
      (st : StreamState),
      (streamRun countTok id created model includeUsage promptTokens true events st).all
        (fun f => !frameHasRealContent f) = true) := by
  constructor
  · intro countTok id created model includeUsage promptTokens st t
    rfl
  · intro countTok id created model includeUsage promptTokens events
    induction events with
    | nil => intro st; rfl
    | cons e rest ih =>
      intro st
      rw [streamRun]
      by_cases hdone : st.isDone
      · rw [if_pos hdone]
        rfl
      · rw [if_neg hdone]
        rw [List.all_append, Bool.and_eq_true]
        refine ⟨?_, ih _⟩
        cases e with
        | text t => rfl
        | replaceResponse t => rfl
        | file f => rfl
        | json tcOpt =>
          cases tcOpt <;> simp [streamStep, frameHasRealContent, toolCallsChunk]
        | error t ar => rfl
        | done =>
          simp [streamStep, frameHasRealContent, createStreamChunk]

/-- C2 counterexample: in the non-stream ReplaceResponse path the collected
tool-call list is discarded and the finish reason is hard-coded to
`"stop"`; the events `[ReplaceResponse "x", Json [tool call], Done]` collect
one tool call yet finish with `"stop"`. -/
theorem claim2_counterexample :
    (handleNonStreamResponse (fun _ => 0) (("x").data) 0 (("m").data) false 0
      [.replaceResponse (("x").data),
       .json (some [{ id := (("c1").data), ctype := (("function").data),
                      function := { name := (("search").data),
                                    arguments := (("{}").data) } }]),
       .done]).collected ≠ []
    ∧ nsFinishReason (handleNonStreamResponse (fun _ => 0) (("x").data) 0 (("m").data)
        false 0
        [.replaceResponse (("x").data),
         .json (some [{ id := (("c1").data), ctype := (("function").data),
                        function := { name := (("search").data),
                                      arguments := (("{}").data) } }]),
         .done]) = some (("stop").data) := by
  constructor
  · decide
  · rfl

/-- C2 amended: the finish-reason rule holds per path.  A rendered
non-stream response carries `finish_reason = "tool_calls"` iff it was built
by the standard path with a non-empty collected list; the ReplaceResponse
path always finishes with `"stop"` regardless of collected tool calls.  In
the standard streaming unfold every terminal chunk (one with a finish reason
and no tool-call delta) carries `"tool_calls"` iff a tool call was observed
among the initial events, else `"stop"`. -/
theorem claim2_finishReason :
    (∀ (countTok : Str → Nat) (id : Str) (created : Int) (model : Str)
      (includeUsage : Bool) (promptTokens : Nat) (events : List ChatEvent),
      nsIsError (handleNonStreamResponse countTok id created model includeUsage
        promptTokens events) = false →
      nsFinishReason (handleNonStreamResponse countTok id created model includeUsage
        promptTokens events)
      = some (if (handleNonStreamResponse countTok id created model includeUsage
            promptTokens events).replaceMode then ("stop").data
          else if (handleNonStreamResponse countTok id created model includeUsage
            promptTokens events).collected = [] then ("stop").data
          else ("tool_calls").data))
    ∧ (∀ (countTok : Str → Nat) (id : Str) (created : Int) (model : Str)
      (includeUsage : Bool) (promptTokens : Nat) (hasToolCalls : Bool)
      (events : List ChatEvent) (st : StreamState),
      (streamRun countTok id created model includeUsage promptTokens hasToolCalls
        events st).all (fun f => !terminalMismatch hasToolCalls f) = true) := by
  constructor
  · intro countTok id created model includeUsage promptTokens events
    rw [handleNonStreamResponse]
    cases hee : ((((events.take 3).filter (fun e => !isDoneEv e)).foldl nsInitStep
        { nsInit0 with hasDone := (events.take 3).any isDoneEv })).earlyError with
    | some err =>
      intro hcontr
      simp [nsIsError] at hcontr
    | none =>
      simp only
      by_cases hrep : ((((events.take 3).filter (fun e => !isDoneEv e)).foldl nsInitStep
          { nsInit0 with hasDone := (events.take 3).any isDoneEv })).replaceResponse
      · rw [if_pos hrep]
        intro _
        rfl
      · rw [if_neg hrep]
        cases hloop : nsLoop (events.drop 3)
            (applyFileRefs (((events.take 3).filter (fun e => !isDoneEv e)).foldl nsInitStep
              { nsInit0 with hasDone := (events.take 3).any isDoneEv }).fileRefs
              (((events.take 3).filter (fun e => !isDoneEv e)).foldl nsInitStep
                { nsInit0 with hasDone := (events.take 3).any isDoneEv }).fullContent)
            (((events.take 3).filter (fun e => !isDoneEv e)).foldl nsInitStep
              { nsInit0 with hasDone := (events.take 3).any isDoneEv }).fileRefs
            (((events.take 3).filter (fun e => !isDoneEv e)).foldl nsInitStep
              { nsInit0 with hasDone := (events.take 3).any isDoneEv }).toolCalls with
        | error p =>
          intro hcontr
          simp [nsIsError] at hcontr
        | ok out =>
          intro _
          obtain ⟨c, refs, tcs⟩ := out
          by_cases htcs : tcs = []
          · subst htcs
            simp [nsFinishReason]
          · simp [nsFinishReason, htcs]
  · intro countTok id created model includeUsage promptTokens hasToolCalls events
    induction events with
    | nil => intro st; rfl
    | cons e rest ih =>
      intro st
      rw [streamRun]
      by_cases hdone : st.isDone
      · rw [if_pos hdone]
        rfl
      · rw [if_neg hdone]
        rw [List.all_append, Bool.and_eq_true]
        refine ⟨?_, ih _⟩
        cases e with
        | text t =>
          by_cases htc : hasToolCalls = true
          · subst htc; rfl
          · have : hasToolCalls = false := by
              cases hasToolCalls
              · rfl
              · exact absurd rfl htc
            subst this
            simp [streamStep, terminalMismatch, createStreamChunk]
        | replaceResponse t => rfl
        | file f => rfl
        | json tcOpt => cases tcOpt <;> simp [streamStep, terminalMismatch, toolCallsChunk]
        | error t ar => rfl
        | done =>
          cases hasToolCalls <;>
            simp [streamStep, terminalMismatch, createStreamChunk]

/-- C2 witness: a standard-path conversation that collects one tool call
after the initial events finishes with `"tool_calls"`. -/
theorem claim2_witness :
    nsFinishReason (handleNonStreamResponse (fun _ => 0) (("x").data) 0 (("m").data) false 0
      [.text (("a").data), .text (("b").data), .text (("c").data),
       .json (some [{ id := (("c1").data), ctype := (("function").data),
                      function := { name := (("search").data),
                                    arguments := (("{}").data) } }]),
       .done]) = some (("tool_calls").data) := by
  have h := claim2_finishReason.1 (fun _ => 0) (("x").data) 0 (("m").data) false 0
    [.text (("a").data), .text (("b").data), .text (("c").data),
     .json (some [{ id := (("c1").data), ctype := (("function").data),
                    function := { name := (("search").data),
                                  arguments := (("{}").data) } }]),
     .done] (by decide)
  rw [h]
  decide

theorem mapIdxGo_length {α β : Type} (f : Nat → α → β) :
    ∀ (i : Nat) (l : List α), (mapIdxGo f i l).length = l.length := by
  intro i l
  induction l generalizing i with
  | nil => rfl
  | cons x xs ih => simp [mapIdxGo, ih]

theorem createChatRequest_query_length (model : Str) (messages : List Message)
    (req : ChatCompletionRequest) (config : Config) :
    (createChatRequest model messages req config).query.length = messages.length := by
  rw [createChatRequest]
  exact mapIdxGo_length _ 0 messages

theorem validateToolLoop_isOk_false_iff (ids : List Str) (msgs : List Message)
    (hexp : ∀ m ∈ msgs, m.role = ("tool").data → m.toolCallId.isSome = true) :
    (validateToolLoop ids msgs).isOk = false ↔
    ∃ m ∈ msgs, m.role = ("tool").data ∧
      ∃ tid, m.toolCallId = some tid ∧ tid ∉ ids := by
  induction msgs with
  | nil => simp [validateToolLoop, Except.isOk, Except.toBool]
  | cons m rest ih =>
    have ihr := ih (fun m2 hm2 hrole => hexp m2 (by simp [hm2]) hrole)
    by_cases hrole : m.role = ("tool").data
    · have hsome : m.toolCallId.isSome = true := hexp m (by simp) hrole
      cases htid : m.toolCallId with
      | none => rw [htid] at hsome; simp at hsome
      | some tid =>
        have hmid : toolMessageId m = some tid := by
          rw [toolMessageId, htid]
        by_cases hmem : tid ∈ ids
        · rw [validateToolLoop, if_pos hrole, hmid]
          simp only [if_pos hmem]
          rw [ihr]
          constructor
          · intro ⟨m2, hm2, h⟩
            exact ⟨m2, by simp [hm2], h⟩
          · intro ⟨m2, hm2, hr2, tid2, htid2, hmem2⟩
            rcases List.mem_cons.mp hm2 with heq | hm2r
            · subst heq
              rw [htid] at htid2
              injection htid2 with h
              subst h
              exact absurd hmem hmem2
            · exact ⟨m2, hm2r, hr2, tid2, htid2, hmem2⟩
        · rw [validateToolLoop, if_pos hrole, hmid]
          simp only [if_neg hmem]
          constructor
          · intro _
            exact ⟨m, by simp, hrole, tid, htid, hmem⟩
          · intro _
            rfl
    · rw [validateToolLoop, if_neg hrole, ihr]
      constructor
      · intro ⟨m2, hm2, h⟩
        exact ⟨m2, by simp [hm2], h⟩
      · intro ⟨m2, hm2, hr2, tid2, htid2, hmem2⟩
        rcases List.mem_cons.mp hm2 with heq | hm2r
        · subst heq
          exact absurd hr2 hrole
        · exact ⟨m2, hm2r, hr2, tid2, htid2, hmem2⟩

/-- C3 counterexample: a conversation with a single tool message whose id
matches no assistant tool call.  The standalone validator rejects it, but
request assembly does not fail: `create_chat_request` (which never calls the
validator and has no error path) still produces a complete request, carrying
the orphan result under the fallback name `"unknown"` and no tool calls. -/
theorem claim3_counterexample :
    (validateToolSequence
      [{ role := ("tool").data, name := none, content := none, toolCalls := none,
         toolCallId := some (("x").data) }]).isOk = false
    ∧ (createChatRequest (("m").data)
        [{ role := ("tool").data, name := none, content := none, toolCalls := none,
           toolCallId := some (("x").data) }]
        { model := ("m").data, messages := [], temperature := none, stop := none,
          logitBias := none, stream := none, tools := none, includeUsage := none,
          reasoningEffort := none, thinking := none, extraBody := none }
        defaultConfig).toolResults
      = some [{ role := ("tool").data, toolCallId := ("x").data,
                name := ("unknown").data, content := [] }]
    ∧ (createChatRequest (("m").data)
        [{ role := ("tool").data, name := none, content := none, toolCalls := none,
           toolCallId := some (("x").data) }]
        { model := ("m").data, messages := [], temperature := none, stop := none,
          logitBias := none, stream := none, tools := none, includeUsage := none,
          reasoningEffort := none, thinking := none, extraBody := none }
        defaultConfig).toolCalls = none := by
  refine ⟨rfl, rfl, rfl⟩

/-- C3 amended: request assembly never fails — `create_chat_request` is
total and maps every inbound message to exactly one upstream query entry.
The referential-integrity check exists only in the uncalled helper
`validate_tool_sequence`, which (for tool messages with explicit ids)
rejects exactly the conversations where tool messages exist and either no
assistant message carries tool calls or some tool message references an id
outside the assistant set — the assistant set being drawn from all
assistant messages, not only prior ones. -/
theorem claim3_assemblyNeverFails :
    (∀ (model : Str) (messages : List Message) (req : ChatCompletionRequest)
      (config : Config),
      (createChatRequest model messages req config).query.length = messages.length)
    ∧ (∀ messages : List Message,
      (∀ m ∈ messages, m.role = ("tool").data → m.toolCallId.isSome = true) →
      ((validateToolSequence messages).isOk = false ↔
        (∃ m ∈ messages, m.role = ("tool").data) ∧
        (assistantToolCallIds messages = [] ∨
         ∃ m ∈ messages, m.role = ("tool").data ∧
           ∃ tid, m.toolCallId = some tid ∧ tid ∉ assistantToolCallIds messages))) := by
  constructor
  · exact createChatRequest_query_length
  · intro messages hexp
    rw [validateToolSequence]
    by_cases hcount : (messages.filter (fun m => decide (m.role = ("tool").data))).length = 0
    · simp only [hcount, if_pos rfl]
      have hnotool : ∀ m ∈ messages, ¬ m.role = ("tool").data := by
        intro m hm hrole
        have : m ∈ messages.filter (fun m => decide (m.role = ("tool").data)) :=
          List.mem_filter.mpr ⟨hm, by simp [hrole]⟩
        rw [List.length_eq_zero.mp hcount] at this
        simp at this
      constructor
      · intro hcontr
        simp [Except.isOk, Except.toBool] at hcontr
      · intro ⟨⟨m, hm, hrole⟩, _⟩
        exact absurd hrole (hnotool m hm)
    · rw [if_neg hcount]
      have htool : ∃ m ∈ messages, m.role = ("tool").data := by
        have hne : messages.filter (fun m => decide (m.role = ("tool").data)) ≠ [] := by
          intro hcontr
          rw [hcontr] at hcount
          exact hcount rfl
        obtain ⟨m, hm⟩ := List.exists_mem_of_ne_nil _ hne
        have := List.mem_filter.mp hm
        exact ⟨m, this.1, by simpa using this.2⟩
      by_cases hids : assistantToolCallIds messages = []
      · rw [if_pos hids]
        simp only [Except.isOk, Except.toBool]
        constructor
        · intro _
          exact ⟨htool, Or.inl hids⟩
        · intro _
          trivial
      · rw [if_neg hids]
        rw [validateToolLoop_isOk_false_iff (assistantToolCallIds messages) messages hexp]
        constructor
        · intro h
          exact ⟨htool, Or.inr h⟩
        · intro ⟨_, h⟩
          rcases h with h | h
          · exact absurd h hids
          · exact h

/-- C3 witness: the one-orphan-tool-message conversation instantiates the
validator characterization. -/
theorem claim3_witness :
    (validateToolSequence
      [{ role := ("tool").data, name := none, content := none, toolCalls := none,
         toolCallId := some (("x").data) }]).isOk = false ↔
    (∃ m ∈ [{ role := ("tool").data, name := none, content := none, toolCalls := none,
              toolCallId := some ((("x").data) : Str) : Message }],
      m.role = ("tool").data) ∧
    (assistantToolCallIds
        [{ role := ("tool").data, name := none, content := none, toolCalls := none,
           toolCallId := some (("x").data) }] = [] ∨
     ∃ m ∈ [{ role := ("tool").data, name := none, content := none, toolCalls := none,
              toolCallId := some ((("x").data) : Str) : Message }],
       m.role = ("tool").data ∧
       ∃ tid, m.toolCallId = some tid ∧
         tid ∉ assistantToolCallIds
           [{ role := ("tool").data, name := none, content := none, toolCalls := none,
              toolCallId := some (("x").data) }]) :=
  claim3_assemblyNeverFails.2
    [{ role := ("tool").data, name := none, content := none, toolCalls := none,
       toolCallId := some (("x").data) }]
    (by decide)

end P2O
